import Mathlib

/-!
Verification of the bandsocks sandboxing substrate against its
natural-language specification.

The Rust sources are shallowly embedded in Lean:
* the in-memory virtual filesystem of src/filesystem/vfs.rs
  (inode table, path resolution with limits, VFSWriter operations);
* the IPC buffer serializer and deserializer of sand/src/protocol.rs;
* the seccomp policy lists of sand/src/seccomp.rs;
* the syscall emulator dispatch and task loop of
  sand/src/process/syscall.rs and sand/src/process/task.rs.

Machine integers are modelled as Nat with explicit bounds where the code
checks them (u64 checked_add and checked_sub on link counts).  Fallible Rust
functions returning Result are modelled with Except.  BTreeMap directory
maps are modelled as association lists whose insert replaces the first
matching key, which agrees with BTreeMap on the duplicate-free maps every
reachable filesystem has.  Rust Path values are modelled by their component
sequence as produced by Path::iter (a leading "/" becomes Seg.root).
-/

namespace Bandsocks

/-- The VFSError variants of the runtime crate (errors.rs plus the
ImageStorageError variant used by vfs.rs). -/
inductive VFSError where
  | DirectoryExpected
  | FileExpected
  | UnallocNode
  | NotFound
  | PathSegmentLimitExceeded
  | SymbolicLinkLimitExceeded
  | INodeRefCountError
  | ImageStorageError
deriving DecidableEq, Repr

/-- Metadata record, struct Stat of vfs.rs.  All fields are machine
integers in Rust; nlink is a u64 whose checked arithmetic is modelled
explicitly below. -/
structure Stat where
  mode : Nat
  uid : Nat
  gid : Nat
  mtime : Nat
  nlink : Nat
  size : Nat
deriving DecidableEq, Repr

/-- Default::default() for Stat: all fields zero. -/
def Stat.zero : Stat := ⟨0, 0, 0, 0, 0, 0⟩

/-- One component of a Rust Path as yielded by Path::iter: either the
root component "/" or a name. -/
inductive Seg where
  | root
  | name (s : String)
deriving DecidableEq, Repr

/-- A path is its component sequence (Path::iter order). -/
abbrev RPath := List Seg

/-- Path::parent() on the component sequence: drops the last component;
None for the empty path and for the bare root path. -/
def RPath.parentSeq : RPath → Option RPath
  | [] => none
  | [Seg.root] => none
  | segs => some segs.dropLast

/-- Path::file_name() on the component sequence: the last component when
it is a normal name (never "..", ".", or the root component). -/
def RPath.fileName : RPath → Option String
  | segs =>
    match segs.getLast? with
    | some (Seg.name s) => if s = ".." ∨ s = "." then none else some s
    | _ => none

/-- enum Node of vfs.rs.  StorageKey is opaque to the VFS and is modelled
as a Nat.  A symlink target is a stored Path, kept as its component
sequence. -/
inductive Node where
  | directory (entries : List (String × Nat))
  | emptyFile
  | normalFile (key : Nat)
  | symbolicLink (target : RPath)
  | char (major minor : Nat)
  | block (major minor : Nat)
  | fifo
deriving DecidableEq, Repr

/-- struct INode of vfs.rs. -/
structure INode where
  stat : Stat
  data : Node
deriving DecidableEq, Repr

/-- struct DirEntryRef of vfs.rs: an ephemeral {parent, child} pair. -/
structure DirEntryRef where
  parent : Nat
  child : Nat
deriving DecidableEq, Repr

/-- struct Filesystem of vfs.rs: a table of optional shared inodes and a
root index.  The Arc sharing is irrelevant to the functional model. -/
structure Filesystem where
  inodes : List (Option INode)
  root : Nat
deriving DecidableEq, Repr

/-- struct VFile of vfs.rs. -/
structure VFile where
  inode : Nat
deriving DecidableEq, Repr

/-- struct Limits of vfs.rs: the per-call path walk budget. -/
structure Limits where
  pathSegment : Nat
  symbolicLink : Nat
deriving DecidableEq, Repr

/-- Limits::reset(). -/
def Limits.reset : Limits := ⟨1000, 50⟩

/-- Limits::take_path_segment: decrement, or fail when exhausted.  The
Rust method mutates in place; the model returns the updated value. -/
def Limits.takePathSegment (l : Limits) : Except VFSError Limits :=
  if l.pathSegment > 0 then .ok { l with pathSegment := l.pathSegment - 1 }
  else .error .PathSegmentLimitExceeded

/-- Limits::take_symbolic_link. -/
def Limits.takeSymbolicLink (l : Limits) : Except VFSError Limits :=
  if l.symbolicLink > 0 then .ok { l with symbolicLink := l.symbolicLink - 1 }
  else .error .SymbolicLinkLimitExceeded

/-- BTreeMap::get on the association-list model. -/
def dirGet : List (String × Nat) → String → Option Nat
  | [], _ => none
  | e :: rest, k => if e.1 = k then some e.2 else dirGet rest k

/-- BTreeMap::insert on the association-list model: replaces the first
entry with the same key and returns the displaced value, or appends. -/
def dirInsert : List (String × Nat) → String → Nat → List (String × Nat) × Option Nat
  | [], k, v => ([(k, v)], none)
  | e :: rest, k, v =>
    if e.1 = k then ((k, v) :: rest, some e.2)
    else
      let r := dirInsert rest k v
      (e :: r.1, r.2)

/-- Slot lookup: the allocated inode at index n, if any (None both for an
unfilled slot and for an out-of-range index, exactly the two cases
Filesystem::get_inode maps to UnallocNode). -/
def Filesystem.getAlloc (fs : Filesystem) (n : Nat) : Option INode :=
  (fs.inodes.getD n none)

/-- Filesystem::get_inode. -/
def Filesystem.getInode (fs : Filesystem) (n : Nat) : Except VFSError INode :=
  match fs.getAlloc n with
  | none => .error .UnallocNode
  | some node => .ok node

/-- Filesystem::resolve_path_segment: spend a path-segment unit, then
either restart at root (for the "/" component) or look the name up in the
parent directory. -/
def resolvePathSegment (fs : Filesystem) (l : Limits) (parent : Nat) (part : Seg) :
    Except VFSError (Limits × DirEntryRef) :=
  match l.takePathSegment with
  | .error e => .error e
  | .ok l1 =>
    match part with
    | .root => .ok (l1, ⟨fs.root, fs.root⟩)
    | .name s =>
      match fs.getAlloc parent with
      | none => .error .UnallocNode
      | some node =>
        match node.data with
        | .directory map =>
          match dirGet map s with
          | none => .error .NotFound
          | some child => .ok (l1, ⟨parent, child⟩)
        | _ => .error .DirectoryExpected

/-
Filesystem::resolve_symlinks and Filesystem::resolve_path are mutually
recursive in the source; the recursion is bounded because every recursion
cycle spends a path-segment or symbolic-link unit of the Limits.  The
model makes the recursion depth an explicit fuel argument decremented at
every call, so that the functions are structurally recursive and compute.
The wrappers resolveSymlinks and resolvePath instantiate the fuel with
resolveFuel, which the lemma family resolveGoIrrel proves sufficient: any
two fuels at or above the bound give equal results, so the fuel is an
artifact of the embedding, not a semantic limit.  resolvePathLoopGo is
the while-let loop in the body of resolve_path.
-/

/-- Fuel that is always sufficient for a walk under limits l (each spent
path-segment or symbolic-link unit costs at most four stack frames; see
resolveGoIrrel). -/
def resolveFuel (l : Limits) : Nat :=
  4 * (l.pathSegment + l.symbolicLink) + 4

mutual

/-- Filesystem::resolve_symlinks (fuel-indexed model): chase the symlink
chain at entry.child, spending a symbolic-link unit per hop and resolving
each target relative to the link's containing directory.  The fuel-zero
branch is unreachable from the wrappers below. -/
def resolveSymlinksGo (fs : Filesystem) : Nat → Limits → DirEntryRef →
    Except VFSError (Limits × DirEntryRef)
  | 0, _, _ => .error .SymbolicLinkLimitExceeded
  | fuel + 1, l, e =>
    match fs.getInode e.child with
    | .error err => .error err
    | .ok node =>
      match node.data with
      | .symbolicLink target =>
        match l.takeSymbolicLink with
        | .error err => .error err
        | .ok l1 =>
          match resolvePathGo fs fuel l1 e.parent target with
          | .error err => .error err
          | .ok (l2, e2) => resolveSymlinksGo fs fuel l2 e2
      | _ => .ok (l, e)

/-- Filesystem::resolve_path (fuel-indexed model): resolve the first
component, then run the loop over the remaining components. -/
def resolvePathGo (fs : Filesystem) : Nat → Limits → Nat → RPath →
    Except VFSError (Limits × DirEntryRef)
  | 0, _, _, _ => .error .SymbolicLinkLimitExceeded
  | fuel + 1, l, parent, path =>
    match path with
    | [] => .ok (l, ⟨parent, parent⟩)
    | part :: rest =>
      match resolvePathSegment fs l parent part with
      | .error err => .error err
      | .ok (l1, e1) => resolvePathLoopGo fs fuel l1 e1 rest

/-- The while-let loop inside Filesystem::resolve_path: resolve symlinks
on the previous result, then resolve the next component in it. -/
def resolvePathLoopGo (fs : Filesystem) : Nat → Limits → DirEntryRef → RPath →
    Except VFSError (Limits × DirEntryRef)
  | 0, _, _, _ => .error .SymbolicLinkLimitExceeded
  | _ + 1, l, e, [] => .ok (l, e)
  | fuel + 1, l, e, part :: rest =>
    match resolveSymlinksGo fs fuel l e with
    | .error err => .error err
    | .ok (l1, e1) =>
      match resolvePathSegment fs l1 e1.child part with
      | .error err => .error err
      | .ok (l2, e2) => resolvePathLoopGo fs fuel l2 e2 rest

end

/-- Filesystem::resolve_symlinks. -/
def Filesystem.resolveSymlinks (fs : Filesystem) (l : Limits) (e : DirEntryRef) :
    Except VFSError (Limits × DirEntryRef) :=
  resolveSymlinksGo fs (resolveFuel l) l e

/-- Filesystem::resolve_path. -/
def Filesystem.resolvePath (fs : Filesystem) (l : Limits) (parent : Nat) (path : RPath) :
    Except VFSError (Limits × DirEntryRef) :=
  resolvePathGo fs (resolveFuel l) l parent path

/-- Filesystem::open_at.  The at_dir argument is bound but never consulted
(the source only prints it in a debug log); resolution starts at the root
inode with a fresh Limits. -/
def Filesystem.openAt (fs : Filesystem) (atDir : Option VFile) (path : RPath) :
    Except VFSError VFile :=
  match fs.resolvePath Limits.reset fs.root path with
  | .error err => .error err
  | .ok (l, e) =>
    match fs.resolveSymlinks l e with
    | .error err => .error err
    | .ok (_, e2) => .ok ⟨e2.child⟩

/-- Filesystem::open (open is a Lean keyword, hence openPath). -/
def Filesystem.openPath (fs : Filesystem) (path : RPath) : Except VFSError VFile :=
  fs.openAt none path

/-- Filesystem::vfile_stat. -/
def Filesystem.vfileStat (fs : Filesystem) (f : VFile) : Except VFSError Stat :=
  match fs.getAlloc f.inode with
  | none => .error .NotFound
  | some node => .ok node.stat

/-- The handle Filesystem::vfile_storage hands back: /dev/null for an
empty file, or the storage part the backend associates with a key. -/
inductive FileHandle where
  | devNull
  | part (f : Nat)
deriving DecidableEq, Repr

/-- Filesystem::vfile_storage.  The external FileStorage collaborator is
modelled as a partial map from storage keys to backing handles
(open_part); both its error and its None result collapse to
ImageStorageError as in the source. -/
def Filesystem.vfileStorage (fs : Filesystem) (storage : Nat → Option Nat) (f : VFile) :
    Except VFSError FileHandle :=
  match fs.getAlloc f.inode with
  | none => .error .NotFound
  | some node =>
    match node.data with
    | .emptyFile => .ok .devNull
    | .normalFile k =>
      match storage k with
      | some h => .ok (.part h)
      | none => .error .ImageStorageError
    | _ => .error .FileExpected

/-- Filesystem::is_directory. -/
def Filesystem.isDirectory (fs : Filesystem) (f : VFile) : Bool :=
  match fs.getAlloc f.inode with
  | some node =>
    match node.data with
    | .directory _ => true
    | _ => false
  | none => false

/-!
VFSWriter operations (vfs.rs).  The writer is always obtained through
Filesystem::writer(), which sets workdir to the root inode, so workdir is
fs.root throughout.  The Rust methods mutate the filesystem through
`&mut`; the model threads the Filesystem value and returns the updated
one on success.  An operation that returns an error is treated as not
contributing a state (reachability below chains successful operations).
-/

/-- Replace the table slot at index num. -/
def setINode (fs : Filesystem) (num : Nat) (i : INode) : Filesystem :=
  { fs with inodes := fs.inodes.set num (some i) }

/-- VFSWriter::alloc_inode_number: append an empty slot. -/
def allocInodeNumber (fs : Filesystem) : Filesystem × Nat :=
  ({ fs with inodes := fs.inodes ++ [none] }, fs.inodes.length)

/-- VFSWriter::put_inode (the source asserts the slot was empty; all
call sites fill a freshly allocated slot). -/
def putInode (fs : Filesystem) (num : Nat) (i : INode) : Filesystem :=
  setINode fs num i

/-- VFSWriter::put_directory: a fresh directory containing ".", with
mode 0o755 and nlink 1. -/
def putDirectory (fs : Filesystem) (num : Nat) : Filesystem :=
  putInode fs num ⟨{ Stat.zero with mode := 0o755, nlink := 1 },
    .directory [(".", num)]⟩

/-- Filesystem::new: one empty slot, then put_directory at root 0. -/
def Filesystem.new : Filesystem :=
  putDirectory { inodes := [none], root := 0 } 0

/-- VFSWriter::inode_incref: u64 checked_add of 1 on stat.nlink. -/
def inodeIncref (fs : Filesystem) (num : Nat) : Except VFSError Filesystem :=
  match fs.getAlloc num with
  | none => .error .UnallocNode
  | some node =>
    if node.stat.nlink + 1 < 2 ^ 64 then
      .ok (setINode fs num { node with stat := { node.stat with nlink := node.stat.nlink + 1 } })
    else .error .INodeRefCountError

/-- VFSWriter::inode_decref: u64 checked_sub of 1 on stat.nlink. -/
def inodeDecref (fs : Filesystem) (num : Nat) : Except VFSError Filesystem :=
  match fs.getAlloc num with
  | none => .error .UnallocNode
  | some node =>
    match node.stat.nlink with
    | 0 => .error .INodeRefCountError
    | count + 1 =>
      .ok (setINode fs num { node with stat := { node.stat with nlink := count } })

/-- VFSWriter::add_child_to_directory: incref the child, insert the entry
into the parent directory map, and decref any displaced previous child. -/
def addChildToDirectory (fs : Filesystem) (parent : Nat) (childName : String)
    (childValue : Nat) : Except VFSError Filesystem :=
  match inodeIncref fs childValue with
  | .error err => .error err
  | .ok fs1 =>
    match fs1.getAlloc parent with
    | none => .error .UnallocNode
    | some pnode =>
      match pnode.data with
      | .directory map =>
        match dirInsert map childName childValue with
        | (mp2, none) => .ok (setINode fs1 parent { pnode with data := .directory mp2 })
        | (mp2, some prevChild) =>
          inodeDecref (setINode fs1 parent { pnode with data := .directory mp2 }) prevChild
      | _ => .error .DirectoryExpected

/-- VFSWriter::alloc_child_directory. -/
def allocChildDirectory (fs : Filesystem) (parent : Nat) (childName : String) :
    Except VFSError (Filesystem × Nat) :=
  let a := allocInodeNumber fs
  let fs2 := putDirectory a.1 a.2
  match addChildToDirectory fs2 parent childName a.2 with
  | .error err => .error err
  | .ok fs3 =>
    match addChildToDirectory fs3 a.2 ".." parent with
    | .error err => .error err
    | .ok fs4 => .ok (fs4, a.2)

/-- VFSWriter::resolve_or_create_path_segment.  This inlines
resolve_path_segment so that the path-segment unit spent before a
NotFound lookup persists into the creation branch, exactly as the Rust
`&mut Limits` does. -/
def resolveOrCreatePathSegment (fs : Filesystem) (l : Limits) (parent : Nat)
    (part : Seg) : Except VFSError (Filesystem × Limits × DirEntryRef) :=
  match l.takePathSegment with
  | .error err => .error err
  | .ok l1 =>
    match part with
    | .root => .ok (fs, l1, ⟨fs.root, fs.root⟩)
    | .name s =>
      match fs.getAlloc parent with
      | none => .error .UnallocNode
      | some node =>
        match node.data with
        | .directory map =>
          match dirGet map s with
          | some child => .ok (fs, l1, ⟨parent, child⟩)
          | none =>
            match allocChildDirectory fs parent s with
            | .error err => .error err
            | .ok (fs2, child) => .ok (fs2, l1, ⟨parent, child⟩)
        | _ => .error .DirectoryExpected

/-- The loop in VFSWriter::resolve_or_create_path: resolve symlinks on
the previous result (purely), then resolve-or-create the next segment. -/
def resolveOrCreatePathLoop (fs : Filesystem) (l : Limits) (e : DirEntryRef) :
    RPath → Except VFSError (Filesystem × Limits × DirEntryRef)
  | [] => .ok (fs, l, e)
  | part :: rest =>
    match fs.resolveSymlinks l e with
    | .error err => .error err
    | .ok (l1, e1) =>
      match resolveOrCreatePathSegment fs l1 e1.child part with
      | .error err => .error err
      | .ok (fs2, l2, e2) => resolveOrCreatePathLoop fs2 l2 e2 rest

/-- VFSWriter::resolve_or_create_path. -/
def resolveOrCreatePath (fs : Filesystem) (l : Limits) (parent : Nat) :
    RPath → Except VFSError (Filesystem × Limits × DirEntryRef)
  | [] => .ok (fs, l, ⟨parent, parent⟩)
  | part :: rest =>
    match resolveOrCreatePathSegment fs l parent part with
    | .error err => .error err
    | .ok (fs1, l1, e1) => resolveOrCreatePathLoop fs1 l1 e1 rest

/-- VFSWriter::resolve_or_create_parent: resolve-or-create the parent
path (or use workdir = root when there is none), resolve symlinks on the
result, and pair it with the file name. -/
def resolveOrCreateParent (fs : Filesystem) (l : Limits) (path : RPath) :
    Except VFSError (Filesystem × Limits × Nat × String) :=
  match RPath.parentSeq path with
  | some par =>
    match resolveOrCreatePath fs l fs.root par with
    | .error err => .error err
    | .ok (fs1, l1, e) =>
      match fs1.resolveSymlinks l1 e with
      | .error err => .error err
      | .ok (l2, e2) =>
        match RPath.fileName path with
        | none => .error .NotFound
        | some nm => .ok (fs1, l2, e2.child, nm)
  | none =>
    match RPath.fileName path with
    | none => .error .NotFound
    | some nm => .ok (fs, l, fs.root, nm)

/-- VFSWriter::write_file. -/
def writeFile (fs : Filesystem) (path : RPath) (data : Option Nat) (stat : Stat) :
    Except VFSError Filesystem :=
  match resolveOrCreateParent fs Limits.reset path with
  | .error err => .error err
  | .ok (fs1, _, dir, nm) =>
    let a := allocInodeNumber fs1
    let fs3 := putInode a.1 a.2 ⟨stat,
      match data with
      | some key => .normalFile key
      | none => .emptyFile⟩
    addChildToDirectory fs3 dir nm a.2

/-- VFSWriter::write_symlink. -/
def writeSymlink (fs : Filesystem) (path : RPath) (linkTo : RPath) (stat : Stat) :
    Except VFSError Filesystem :=
  match resolveOrCreateParent fs Limits.reset path with
  | .error err => .error err
  | .ok (fs1, _, dir, nm) =>
    let a := allocInodeNumber fs1
    let fs3 := putInode a.1 a.2 ⟨stat, .symbolicLink linkTo⟩
    addChildToDirectory fs3 dir nm a.2

/-- VFSWriter::write_hardlink: resolve the existing node (without tail
symlink resolution), then link it from the new path; one Limits serves
both resolutions as in the source. -/
def writeHardlink (fs : Filesystem) (path : RPath) (linkTo : RPath) :
    Except VFSError Filesystem :=
  match fs.resolvePath Limits.reset fs.root linkTo with
  | .error err => .error err
  | .ok (l1, eTo) =>
    match resolveOrCreateParent fs l1 path with
    | .error err => .error err
    | .ok (fs1, _, dir, nm) => addChildToDirectory fs1 dir nm eTo.child

/-- VFSWriter::write_fifo. -/
def writeFifo (fs : Filesystem) (path : RPath) (stat : Stat) :
    Except VFSError Filesystem :=
  match resolveOrCreateParent fs Limits.reset path with
  | .error err => .error err
  | .ok (fs1, _, dir, nm) =>
    let a := allocInodeNumber fs1
    let fs3 := putInode a.1 a.2 ⟨stat, .fifo⟩
    addChildToDirectory fs3 dir nm a.2

/-- VFSWriter::write_char_device. -/
def writeCharDevice (fs : Filesystem) (path : RPath) (stat : Stat)
    (major minor : Nat) : Except VFSError Filesystem :=
  match resolveOrCreateParent fs Limits.reset path with
  | .error err => .error err
  | .ok (fs1, _, dir, nm) =>
    let a := allocInodeNumber fs1
    let fs3 := putInode a.1 a.2 ⟨stat, .char major minor⟩
    addChildToDirectory fs3 dir nm a.2

/-- VFSWriter::write_block_device. -/
def writeBlockDevice (fs : Filesystem) (path : RPath) (stat : Stat)
    (major minor : Nat) : Except VFSError Filesystem :=
  match resolveOrCreateParent fs Limits.reset path with
  | .error err => .error err
  | .ok (fs1, _, dir, nm) =>
    let a := allocInodeNumber fs1
    let fs3 := putInode a.1 a.2 ⟨stat, .block major minor⟩
    addChildToDirectory fs3 dir nm a.2

-- Equality of Except values is decidable when both components are.
deriving instance DecidableEq for Except

/-- The resolution phase of VFSWriter::write_directory_metadata, exposed
so that the link-count side condition of reachability can refer to the
directory the stat lands on. -/
def wdmResolve (fs : Filesystem) (path : RPath) :
    Except VFSError (Filesystem × Limits × DirEntryRef) :=
  match resolveOrCreatePath fs Limits.reset fs.root path with
  | .error err => .error err
  | .ok (fs1, l1, e) =>
    match fs1.resolveSymlinks l1 e with
    | .error err => .error err
    | .ok (l2, e2) => .ok (fs1, l2, e2)

/-- VFSWriter::write_directory_metadata: resolve or create the path,
resolve symlinks, and overwrite the stat of the resulting directory. -/
def writeDirectoryMetadata (fs : Filesystem) (path : RPath) (stat : Stat) :
    Except VFSError Filesystem :=
  match wdmResolve fs path with
  | .error err => .error err
  | .ok (fs1, _, e) =>
    match fs1.getAlloc e.child with
    | none => .error .UnallocNode
    | some node =>
      match node.data with
      | .directory _ => .ok (setINode fs1 e.child { node with stat := stat })
      | _ => .error .DirectoryExpected



/-!
IPC buffer and wire protocol (sand/src/protocol.rs).

The buffer holds a byte vector (capacity 128) and a descriptor vector
(capacity 8).  The serde-derived Serialize/Deserialize implementations
drive the IPCSerializer/IPCDeserializer of protocol.rs; the functions
below compose exactly the serializer methods those derived
implementations call at each type.  In the src snapshot most serializer
methods are stubs returning Error::Unimplemented (serialize_u32,
serialize_tuple_struct, serialize_struct, serialize_unit_variant,
serialize_tuple_variant, and the whole deserializer except
SysFd::deserialize, which ignores its input and returns SysFd(999)).
-/

/-- buffer::Error of protocol.rs. -/
inductive IPCError where
  | Unimplemented
  | UnexpectedEnd
  | BufferFull
  | InvalidValue
  | Serialize
  | Deserialize
deriving DecidableEq, Repr

/-- buffer::IPCBuffer: bytes (u8, capacity 128), files (SysFd values,
capacity 8), and the two pop-front offsets. -/
structure IPCBuffer where
  bytes : List Nat
  files : List Nat
  byteOffset : Nat
  fileOffset : Nat
deriving DecidableEq, Repr

/-- IPCBuffer::new. -/
def IPCBuffer.new : IPCBuffer := ⟨[], [], 0, 0⟩

/-- IPCBuffer::push_back_byte (heapless Vec::push, BufferFull at
capacity 128). -/
def IPCBuffer.pushBackByte (b : IPCBuffer) (v : Nat) : Except IPCError IPCBuffer :=
  if b.bytes.length < 128 then .ok { b with bytes := b.bytes ++ [v % 256] }
  else .error .BufferFull

/-- IPCBuffer::push_back_file (capacity 8). -/
def IPCBuffer.pushBackFile (b : IPCBuffer) (fd : Nat) : Except IPCError IPCBuffer :=
  if b.files.length < 8 then .ok { b with files := b.files ++ [fd] }
  else .error .BufferFull

/-- struct SysPid (u32). -/
structure SysPid where
  pid : Nat
deriving DecidableEq, Repr

/-- struct VPid (u32). -/
structure VPid where
  pid : Nat
deriving DecidableEq, Repr

/-- struct Signal (u32). -/
structure Signal where
  sig : Nat
deriving DecidableEq, Repr

/-- struct SysFd (u32). -/
structure SysFd where
  fd : Nat
deriving DecidableEq, Repr

/-- struct Errno (i32). -/
structure ErrnoV where
  err : Int
deriving DecidableEq, Repr

/-- struct VString (a guest pointer). -/
structure VStringV where
  ptr : Nat
deriving DecidableEq, Repr

/-- struct SysAccess of protocol.rs. -/
structure SysAccess where
  dir : Option SysFd
  path : VStringV
  mode : Int
deriving DecidableEq, Repr

/-- enum FromSand of protocol.rs (variant indices 0..3). -/
inductive FromSand where
  | OpenProcess (p : SysPid)
  | SysAccessReq (a : SysAccess)
  | SysOpen (a : SysAccess) (flags : Int)
  | SysKill (v : VPid) (s : Signal)
deriving DecidableEq, Repr

/-- enum ToSand of protocol.rs (variant indices 0..3). -/
inductive ToSand where
  | OpenProcessReply
  | SysOpenReply (r : Except ErrnoV SysFd)
  | SysAccessReply (r : Except ErrnoV Unit)
  | SysKillReply (r : Except ErrnoV Unit)
deriving DecidableEq, Repr

/-- struct MessageFromSand of protocol.rs. -/
structure MessageFromSand where
  task : VPid
  op : FromSand
deriving DecidableEq, Repr

/-- struct MessageToSand of protocol.rs. -/
structure MessageToSand where
  task : VPid
  op : ToSand
deriving DecidableEq, Repr

/-- IPCSerializer::serialize_u32 (protocol.rs line 349): a stub returning
Unimplemented. -/
def serializeU32 (b : IPCBuffer) (v : Nat) : Except IPCError IPCBuffer :=
  .error .Unimplemented

/-- SysFd's Serialize impl wraps the fd in serialize_tuple_struct, which
is a stub returning Unimplemented (protocol.rs line 353). -/
def serializeSysFd (b : IPCBuffer) (fd : SysFd) : Except IPCError IPCBuffer :=
  .error .Unimplemented

/-- The derived Serialize for the u32 newtype structs (SysPid, VPid,
Signal) calls serialize_newtype_struct, which forwards to the inner
value, whose serialize_u32 is a stub. -/
def serializeSysPid (b : IPCBuffer) (p : SysPid) : Except IPCError IPCBuffer :=
  serializeU32 b p.pid

/-- The derived Serialize for enum FromSand: a newtype variant writes its
index as one byte (serialize_newtype_variant, protocol.rs line 364) and
then its payload; a tuple variant calls serialize_tuple_variant, a stub
returning Unimplemented; struct payloads call serialize_struct, likewise
a stub. -/
def serializeFromSand (b : IPCBuffer) (m : FromSand) : Except IPCError IPCBuffer :=
  match m with
  | .OpenProcess p =>
    match b.pushBackByte 0 with
    | .error err => .error err
    | .ok b1 => serializeSysPid b1 p
  | .SysAccessReq _ =>
    match b.pushBackByte 1 with
    | .error err => .error err
    | .ok _ => .error .Unimplemented
  | .SysOpen _ _ => .error .Unimplemented
  | .SysKill _ _ => .error .Unimplemented

/-- The derived Serialize for struct MessageFromSand calls
serialize_struct("MessageFromSand", 2), a stub returning Unimplemented
(protocol.rs line 394). -/
def serializeMessageFromSand (b : IPCBuffer) (m : MessageFromSand) :
    Except IPCError IPCBuffer :=
  .error .Unimplemented

/-- The derived Serialize for struct MessageToSand likewise hits the
serialize_struct stub. -/
def serializeMessageToSand (b : IPCBuffer) (m : MessageToSand) :
    Except IPCError IPCBuffer :=
  .error .Unimplemented

/-- SysFd's Deserialize impl (protocol.rs line 532): ignores the input
buffer entirely and returns SysFd(999); in particular it dequeues no
descriptor. -/
def deserializeSysFd (b : IPCBuffer) : Except IPCError (SysFd × IPCBuffer) :=
  .ok (⟨999⟩, b)

/-- The derived Deserialize for struct MessageFromSand calls
deserialize_struct, a stub returning Unimplemented (protocol.rs line
641); every enum likewise hits the deserialize_enum stub (line 572). -/
def deserializeMessageFromSand (b : IPCBuffer) :
    Except IPCError (MessageFromSand × IPCBuffer) :=
  .error .Unimplemented

/-- The round trip the spec promises: encode into a fresh buffer, then
decode. -/
def roundTripFromSand (m : MessageFromSand) : Except IPCError MessageFromSand :=
  match serializeMessageFromSand IPCBuffer.new m with
  | .error err => .error err
  | .ok b =>
    match deserializeMessageFromSand b with
    | .error err => .error err
    | .ok (m2, _) => .ok m2

/-!
Seccomp policies (sand/src/seccomp.rs).

The BPF assembly layer (crate::bpf's ProgramBuffer, load, ret, if_any_eq)
is not part of src.  Modelled from the spec: the generated program loads
the syscall number, then runs its rules in order; if_any_eq(nrs, action)
returns the action when the number is among nrs, and the program falls
through to a final return otherwise (the program inspects only the
syscall number register).  The rule lists themselves are from
seccomp.rs.
-/

/-- The three seccomp actions the policies use. -/
inductive SeccompAction where
  | allow
  | traceTracer
  | killProcess
deriving DecidableEq, Repr

/-- Modelled from the spec: one if_any_eq rule of the bpf layer. -/
inductive SeccompRule where
  | ifAnyEq (nrs : List Nat) (action : SeccompAction)
deriving DecidableEq, Repr

/-- Modelled from the spec: evaluate the rule list on a syscall number,
falling through to the final return action. -/
def evalRules : List SeccompRule → SeccompAction → Nat → SeccompAction
  | [], finalAct, _ => finalAct
  | .ifAnyEq nrs act :: rest, finalAct, nr =>
    if nr ∈ nrs then act else evalRules rest finalAct nr

/-- x86_64 syscall numbers from the sc crate used by seccomp.rs:
READ, WRITE, PREAD64, PWRITE64, READV, WRITEV, SENDMSG, RECVMSG, CLOSE,
FCNTL, EXIT_GROUP, EXIT, RT_SIGRETURN, FORK, BRK, COPY_FILE_RANGE,
SENDFILE. -/
def baseAllowListNrs : List Nat :=
  [0, 1, 17, 18, 19, 20, 46, 47, 3, 72, 231, 60, 15, 57, 12, 326, 40]

/-- x86_64 syscall number of ptrace (sc crate). -/
def NR_PTRACE : Nat := 101

/-- base_rules_for_all_policies of seccomp.rs: allow the base list. -/
def baseRulesForAllPolicies : List SeccompRule :=
  [.ifAnyEq baseAllowListNrs .allow]

/-- policy_for_loader of seccomp.rs: the base rules, then the deny list
(ptrace is killed immediately), then a final RET_TRACE. -/
def policyForLoader : List SeccompRule :=
  baseRulesForAllPolicies ++ [.ifAnyEq [NR_PTRACE] .killProcess]

/-- Evaluate the compiled loader (guest) policy on a syscall number: the
final fall-through action is RET_TRACE. -/
def evalLoaderPolicy (nr : Nat) : SeccompAction :=
  evalRules policyForLoader .traceTracer nr

/-!
Syscall emulator and task loop (sand/src/process/syscall.rs and
sand/src/process/task.rs).

The abi module of the sand crate is not part of src.  Modelled from the
spec: the register-file writeback helpers (Syscall::from_regs reads the
decoded number and arguments, ret_to_regs stores the return value,
orig_nr_to_regs rewrites the stored syscall number), the SYSCALL_BLOCKED
sentinel the kernel treats as "do nothing", ENOSYS = 38, AT_FDCWD =
-100, the LogLevel ordering used by Task::log_enabled (error below warn
below info below debug), and page_round_up (round up to a 4096-byte
boundary).
-/

/-- Modelled from the spec: log levels, ordered for log_enabled's
`level <= max_log_level` comparison. -/
inductive LogLevel where
  | off
  | error
  | warn
  | info
  | debug
  | traceLvl
deriving DecidableEq, Repr

/-- Numeric height of a log level. -/
def LogLevel.toNat : LogLevel → Nat
  | .off => 0
  | .error => 1
  | .warn => 2
  | .info => 3
  | .debug => 4
  | .traceLvl => 5

/-- Task::log_enabled: level <= max_log_level. -/
def logEnabled (maxLevel level : LogLevel) : Bool :=
  level.toNat ≤ maxLevel.toNat

/-- Modelled from the spec: the sentinel syscall number the tracer
writes into orig_nr so the kernel consumes the trapped call.  Only its
identity matters to the claims. -/
def SYSCALL_BLOCKED : Int := -1

/-- Modelled from the spec: ENOSYS. -/
def ENOSYS : Int := 38

/-- Modelled from the spec: AT_FDCWD. -/
def AT_FDCWD : Int := -100

/-- The guest register file as the emulator sees it: the stored syscall
number (orig_rax), the return-value register (rax), and the six
argument registers. -/
structure UserRegs where
  origRax : Int
  rax : Int
  args : List Int
deriving DecidableEq, Repr

/-- An emulated-call record (struct Syscall: nr, args, ret), as carried
in the LogMessage::Emulated log payload. -/
structure SyscallRec where
  nr : Int
  args : List Int
  ret : Int
deriving DecidableEq, Repr

/-- Branch classification of SyscallEmulator::dispatch: branches that
compute their return value locally (with the log level the branch sets),
and branches that delegate to IPC, the trampoline, or the loader, whose
results depend on the environment and are outside this model. -/
inductive EmuOutcome where
  | localRet (ret : Int) (level : LogLevel)
  | external
deriving DecidableEq, Repr

/-- The syscall numbers dispatch has explicit arms for (sc crate,
x86_64): BRK 12, EXECVE 59, GETPID 39, GETPPID 110, GETUID 102, GETGID
104, GETEUID 107, GETEGID 108, GETPGRP 111, SETPGID 109, GETPGID 121,
UNAME 63, SYSINFO 99, SET_TID_ADDRESS 218, IOCTL 16, STAT 4, FSTAT 5,
LSTAT 6, NEWFSTATAT 262, ACCESS 21, GETCWD 79, CHDIR 80, OPEN 2,
OPENAT 257. -/
def emulatedNrs : List Int :=
  [12, 59, 39, 110, 102, 104, 107, 108, 111, 109, 121, 63, 99, 218, 16,
   4, 5, 6, 262, 21, 79, 80, 2, 257]

/-- SyscallEmulator::dispatch, by branch.  Arms that await an IPC reply
or drive the trampoline or loader (BRK, EXECVE, UNAME, STAT, LSTAT,
NEWFSTATAT, ACCESS, GETCWD, CHDIR, OPEN, OPENAT with AT_FDCWD) are
classified external; the pure arms return their constant (with the log
level the arm sets); every other number falls to the final arm, which
returns -ENOSYS and sets the error log level. -/
def dispatchOutcome (vpid : Nat) (nr : Int) (args : List Int) : EmuOutcome :=
  if nr = 12 ∨ nr = 59 ∨ nr = 63 ∨ nr = 4 ∨ nr = 6 ∨ nr = 262 ∨ nr = 21 ∨
      nr = 79 ∨ nr = 80 ∨ nr = 2 ∨ (nr = 257 ∧ args.headD 0 = AT_FDCWD) then
    .external
  else if nr = 39 then .localRet vpid .debug
  else if nr = 110 then .localRet 1 .warn
  else if nr = 102 ∨ nr = 104 ∨ nr = 107 ∨ nr = 108 ∨ nr = 111 ∨ nr = 109 ∨
      nr = 121 ∨ nr = 99 ∨ nr = 218 ∨ nr = 16 ∨ nr = 5 then
    .localRet 0 .warn
  else .localRet (-ENOSYS) .error

/-- What Task::handle_seccomp_trap leaves behind on a locally-computed
dispatch: the rewritten register file, the log entry (if enabled), and
the fact that the task was continued. -/
structure TrapOutcome where
  regs : UserRegs
  log : Option (LogLevel × SyscallRec)
  continues : Bool
deriving DecidableEq, Repr

/-- Task::handle_seccomp_trap around SyscallEmulator::dispatch: decode
the call from the registers, dispatch, write the return value back
(ret_to_regs), emit the Emulated log entry when the chosen level is
enabled, rewrite orig_nr to SYSCALL_BLOCKED, set the registers, and
continue the task (it stays in its run loop).  Environment-dependent
branches are not modelled (none). -/
def handleSeccompTrapLocal (vpid : Nat) (maxLevel : LogLevel) (regs : UserRegs) :
    Option TrapOutcome :=
  match dispatchOutcome vpid regs.origRax regs.args with
  | .external => none
  | .localRet ret level =>
    some { regs := { regs with rax := ret, origRax := SYSCALL_BLOCKED },
           log := if logEnabled maxLevel level then
               some (level, ⟨regs.origRax, regs.args, ret⟩)
             else none,
           continues := true }

/-!  Task::run's event dispatch (task.rs). -/

/-- Modelled from the spec: the wait-status words of the sand abi.
SIGCHLD = 17, CLD_TRAPPED = 4, CLD_EXITED = 1; PTRACE_SIG_FORK,
PTRACE_SIG_SECCOMP and PTRACE_SIG_EXEC are SIGTRAP with the ptrace event
in the high byte, so all exceed 0x100. -/
def SIGCHLD : Nat := 17
def CLD_TRAPPED : Nat := 4
def CLD_EXITED : Nat := 1
def PTRACE_SIG_FORK : Nat := 0x105
def PTRACE_SIG_SECCOMP : Nat := 0x705

/-- An event delivered to Task::run. -/
inductive RunEvent where
  | signal (sig code status : Nat)
  | message
deriving DecidableEq, Repr

/-- What one iteration of the Task::run loop does with an event. -/
inductive RunStep where
  | continueRunning
  | spawnChild (pid : Nat)
  | exitedCleanly (status : Nat)
  | panicked
deriving DecidableEq, Repr

/-- Task::run's match on the next event, with childPid standing for the
value ptrace::geteventmsg reports for a fork trap.  handle_fork panics
("fork not handled yet"), handle_signal panics, handle_exited sends the
Exited message and then panics ("exit not handled yet"); only the
seccomp arm returns to the loop. -/
def taskRunStep (ev : RunEvent) (childPid : Nat) : RunStep :=
  match ev with
  | .signal sig code status =>
    if sig = SIGCHLD ∧ code = CLD_TRAPPED ∧ status = PTRACE_SIG_FORK then
      .panicked
    else if sig = SIGCHLD ∧ code = CLD_TRAPPED ∧ status = PTRACE_SIG_SECCOMP then
      .continueRunning
    else if sig = SIGCHLD ∧ code = CLD_TRAPPED ∧ status < 0x100 then
      .panicked
    else if sig = SIGCHLD ∧ code = CLD_EXITED then
      .panicked
    else .panicked
  | .message => .panicked

/-!
brk emulation (do_brk of sand/src/process/syscall.rs).

The guest address space the trampoline manipulates is external to the
tracer; modelled from the spec as a list of disjoint (address, length)
mappings with kernel mmap/munmap/mremap behaviour on exact regions: an
anonymous MAP_FIXED_NOREPLACE mmap fails with EEXIST when the region
overlaps an existing mapping (the trampoline wrapper also rolls back a
moved mapping to the same error), munmap and mremap act on the exact
brk-arena region do_brk maintains.
-/

/-- Modelled from the spec: page_round_up with 4096-byte pages. -/
def pageRoundUp (x : Nat) : Nat :=
  ((x + 4095) / 4096) * 4096

/-- The guest mappings the trampoline can see (address, length). -/
abbrev AddrSpace := List (Nat × Nat)

/-- Two half-open regions overlap. -/
def regionsOverlap (a la b lb : Nat) : Bool :=
  a < b + lb ∧ b < a + la

/-- Modelled from the spec: EEXIST. -/
def EEXIST : Int := 17

/-- Modelled from the spec: EINVAL. -/
def EINVAL : Int := 22

/-- Trampoline::mmap_anonymous_noreplace as seen through the guest
address space. -/
def trMmapAnonymousNoreplace (sp : AddrSpace) (addr len : Nat) :
    Except Int AddrSpace :=
  if sp.any fun r => regionsOverlap r.1 r.2 addr len then .error (-EEXIST)
  else .ok (sp ++ [(addr, len)])

/-- Trampoline::munmap on the exact region. -/
def trMunmap (sp : AddrSpace) (addr len : Nat) : Except Int AddrSpace :=
  if (addr, len) ∈ sp then .ok (sp.filter fun r => r ≠ (addr, len))
  else .error (-EINVAL)

/-- Trampoline::mremap on the exact region, growing or shrinking in
place when the tail is free. -/
def trMremap (sp : AddrSpace) (addr oldLen newLen : Nat) : Except Int AddrSpace :=
  if (addr, oldLen) ∈ sp then
    let others := sp.filter fun r => r ≠ (addr, oldLen)
    if others.any fun r => regionsOverlap r.1 r.2 addr newLen then .error (-EEXIST)
    else .ok (others ++ [(addr, newLen)])
  else .error (-EINVAL)

/-- Task mm state: the emulated program break. -/
structure TaskMm where
  brk : Nat
  brkStart : Nat
deriving DecidableEq, Repr

/-- do_brk of syscall.rs: round the old and requested break up to page
boundaries, unmap / map / remap the brk arena accordingly, store
max(brk_start, new_brk) as the new break and return it.  A zero request
just reports the current break. -/
def doBrk (mm : TaskMm) (sp : AddrSpace) (newBrk : Nat) :
    Except Int (Nat × TaskMm × AddrSpace) :=
  if newBrk ≠ 0 then
    let oldBrkPage := pageRoundUp (max mm.brkStart mm.brk)
    let newBrkPage := pageRoundUp (max mm.brkStart newBrk)
    let spStep : Except Int AddrSpace :=
      if newBrkPage ≠ oldBrkPage then
        if newBrkPage = mm.brkStart then
          trMunmap sp mm.brkStart (oldBrkPage - mm.brkStart)
        else if oldBrkPage = mm.brkStart then
          trMmapAnonymousNoreplace sp mm.brkStart (newBrkPage - mm.brkStart)
        else
          trMremap sp mm.brkStart (oldBrkPage - mm.brkStart) (newBrkPage - mm.brkStart)
      else .ok sp
    match spStep with
    | .error err => .error err
    | .ok sp2 =>
      let mm2 : TaskMm := { mm with brk := max mm.brkStart newBrk }
      .ok (mm2.brk, mm2, sp2)
  else .ok (mm.brk, mm, sp)

/-!  Concrete scenario filesystems used by the spec's end-to-end cases. -/

/-- A regular-file metadata record (mode 0644, size 77). -/
def statF : Stat := ⟨0o644, 0, 0, 0, 0, 77⟩

/-- A symlink metadata record (mode 0777). -/
def statL : Stat := ⟨0o777, 0, 0, 0, 0, 0⟩

/-- The symlink-in-middle filesystem: /a/b directory, /a/b/c a regular
file with content key 7, /link a symlink to /a (the value produced by
the writer operations; see the C4 theorem). -/
def fsMidlink : Filesystem :=
  ⟨[some ⟨⟨0o755, 0, 0, 0, 2, 0⟩, .directory [(".", 0), ("a", 1), ("link", 4)]⟩,
    some ⟨⟨0o755, 0, 0, 0, 3, 0⟩, .directory [(".", 1), ("..", 0), ("b", 2)]⟩,
    some ⟨⟨0o755, 0, 0, 0, 2, 0⟩, .directory [(".", 2), ("..", 1), ("c", 3)]⟩,
    some ⟨⟨0o644, 0, 0, 0, 1, 77⟩, .normalFile 7⟩,
    some ⟨⟨0o777, 0, 0, 0, 1, 0⟩, .symbolicLink [.root, .name "a"]⟩], 0⟩

/-- A filesystem with /d/rel a symlink with the relative target "e" and
/d/e a regular file with content key 9. -/
def fsRellink : Filesystem :=
  ⟨[some ⟨⟨0o755, 0, 0, 0, 2, 0⟩, .directory [(".", 0), ("d", 1)]⟩,
    some ⟨⟨0o755, 0, 0, 0, 2, 0⟩, .directory [(".", 1), ("..", 0), ("rel", 2), ("e", 3)]⟩,
    some ⟨⟨0o777, 0, 0, 0, 1, 0⟩, .symbolicLink [.name "e"]⟩,
    some ⟨⟨0o644, 0, 0, 0, 1, 77⟩, .normalFile 9⟩], 0⟩

/-- The symlink-loop filesystem: /x -> /y and /y -> /x (the value
produced by the two write_symlink operations; see the C3 theorem). -/
def fsLoop : Filesystem :=
  ⟨[some ⟨⟨0o755, 0, 0, 0, 1, 0⟩, .directory [(".", 0), ("x", 1), ("y", 2)]⟩,
    some ⟨⟨0, 0, 0, 0, 1, 0⟩, .symbolicLink [.root, .name "y"]⟩,
    some ⟨⟨0, 0, 0, 0, 1, 0⟩, .symbolicLink [.root, .name "x"]⟩], 0⟩

/-- A filesystem whose root contains itself under the name "a", giving
arbitrarily long resolvable paths /a/a/a/... . -/
def fsSelfLoop : Filesystem :=
  ⟨[some ⟨⟨0o755, 0, 0, 0, 2, 0⟩, .directory [(".", 0), ("a", 0)]⟩], 0⟩

/-- A path of 1001 components: "/" followed by 1000 times "a". -/
def c3LongPath : RPath := .root :: List.replicate 1000 (.name "a")

/-- A filesystem where /d is a directory containing file f, while the
root has no entry f: used to show open_at ignores its at_dir argument. -/
def fsAtDirDemo : Filesystem :=
  ⟨[some ⟨⟨0o755, 0, 0, 0, 2, 0⟩, .directory [(".", 0), ("d", 1)]⟩,
    some ⟨⟨0o755, 0, 0, 0, 2, 0⟩, .directory [(".", 1), ("..", 0), ("f", 2)]⟩,
    some ⟨⟨0o644, 0, 0, 0, 1, 0⟩, .emptyFile⟩], 0⟩

/-!
Link-count accounting (the invariant of spec section 3): for every
allocated inode, stat.nlink should equal the number of directory entries
in the entire filesystem whose value is that inode.
-/

/-- Directory entries of one table slot pointing at inode n. -/
def entriesTo (slot : Option INode) (n : Nat) : Nat :=
  match slot with
  | some ⟨_, .directory mp⟩ => (mp.filter fun kv => kv.2 = n).length
  | _ => 0

/-- The number of directory entries in the entire filesystem whose value
is n. -/
def refCount (fs : Filesystem) (n : Nat) : Nat :=
  (fs.inodes.map fun slot => entriesTo slot n).sum

/-- The claimed invariant: every allocated inode's stored link count
equals the number of directory entries referencing it. -/
def LinkCountInv (fs : Filesystem) : Prop :=
  ∀ i node, fs.getAlloc i = some node → node.stat.nlink = refCount fs i

/-- Every directory entry points at an allocated inode (an auxiliary
invariant needed to carry LinkCountInv through fresh allocations). -/
def EntriesAlloc (fs : Filesystem) : Prop :=
  ∀ i node, fs.getAlloc i = some node →
    ∀ mp, node.data = .directory mp → ∀ kv ∈ mp, (fs.getAlloc kv.2).isSome

/-- The auxiliary invariant actually carried through the induction. -/
def FullInv (fs : Filesystem) : Prop :=
  LinkCountInv fs ∧ EntriesAlloc fs

/-- One successful VFSWriter operation, with unrestricted arguments:
the step relation of claim C2 as stated. -/
inductive WriterStep : Filesystem → Filesystem → Prop where
  | writeFile (fs fs' : Filesystem) (p : RPath) (key : Option Nat) (s : Stat) :
      writeFile fs p key s = .ok fs' → WriterStep fs fs'
  | writeSymlink (fs fs' : Filesystem) (p target : RPath) (s : Stat) :
      writeSymlink fs p target s = .ok fs' → WriterStep fs fs'
  | writeHardlink (fs fs' : Filesystem) (p target : RPath) :
      writeHardlink fs p target = .ok fs' → WriterStep fs fs'
  | writeDirectoryMetadata (fs fs' : Filesystem) (p : RPath) (s : Stat) :
      writeDirectoryMetadata fs p s = .ok fs' → WriterStep fs fs'
  | writeFifo (fs fs' : Filesystem) (p : RPath) (s : Stat) :
      writeFifo fs p s = .ok fs' → WriterStep fs fs'
  | writeCharDevice (fs fs' : Filesystem) (p : RPath) (s : Stat) (major minor : Nat) :
      writeCharDevice fs p s major minor = .ok fs' → WriterStep fs fs'
  | writeBlockDevice (fs fs' : Filesystem) (p : RPath) (s : Stat) (major minor : Nat) :
      writeBlockDevice fs p s major minor = .ok fs' → WriterStep fs fs'

/-- Filesystem states reachable from Filesystem::new by successful
writer operations (claim C2 as stated). -/
inductive WriterReach : Filesystem → Prop where
  | start : WriterReach Filesystem.new
  | step (fs fs' : Filesystem) : WriterReach fs → WriterStep fs fs' → WriterReach fs'

/-- One successful VFSWriter operation under the amended side
conditions: node-creating operations carry nlink = 0 in their supplied
stat (the link count is owned by the VFS), and write_directory_metadata
supplies a stat whose nlink equals the link count already stored on the
directory it resolves to. -/
inductive GoodStep : Filesystem → Filesystem → Prop where
  | writeFile (fs fs' : Filesystem) (p : RPath) (key : Option Nat) (s : Stat) :
      s.nlink = 0 → writeFile fs p key s = .ok fs' → GoodStep fs fs'
  | writeSymlink (fs fs' : Filesystem) (p target : RPath) (s : Stat) :
      s.nlink = 0 → writeSymlink fs p target s = .ok fs' → GoodStep fs fs'
  | writeHardlink (fs fs' : Filesystem) (p target : RPath) :
      writeHardlink fs p target = .ok fs' → GoodStep fs fs'
  | writeDirectoryMetadata (fs fs' fs1 : Filesystem) (p : RPath) (s : Stat)
      (l : Limits) (e : DirEntryRef) (node : INode) :
      wdmResolve fs p = .ok (fs1, l, e) → fs1.getAlloc e.child = some node →
      s.nlink = node.stat.nlink →
      writeDirectoryMetadata fs p s = .ok fs' → GoodStep fs fs'
  | writeFifo (fs fs' : Filesystem) (p : RPath) (s : Stat) :
      s.nlink = 0 → writeFifo fs p s = .ok fs' → GoodStep fs fs'
  | writeCharDevice (fs fs' : Filesystem) (p : RPath) (s : Stat) (major minor : Nat) :
      s.nlink = 0 → writeCharDevice fs p s major minor = .ok fs' → GoodStep fs fs'
  | writeBlockDevice (fs fs' : Filesystem) (p : RPath) (s : Stat) (major minor : Nat) :
      s.nlink = 0 → writeBlockDevice fs p s major minor = .ok fs' → GoodStep fs fs'

/-- Reachability under the amended side conditions. -/
inductive GoodReach : Filesystem → Prop where
  | start : GoodReach Filesystem.new
  | step (fs fs' : Filesystem) : GoodReach fs → GoodStep fs fs' → GoodReach fs'

/-- The filesystem produced by the C2 counterexample operation: a
write_file at /a whose supplied stat carries nlink = 7. -/
def c2fs : Filesystem :=
  ⟨[some ⟨⟨0o755, 0, 0, 0, 1, 0⟩, .directory [(".", 0), ("a", 1)]⟩,
    some ⟨⟨0, 0, 0, 0, 8, 0⟩, .emptyFile⟩], 0⟩


/-- The state reached by one nlink-0 write_file of /a on a fresh
filesystem (the C2 witness state). -/
def c2fsGood : Filesystem :=
  ⟨[some ⟨⟨0o755, 0, 0, 0, 1, 0⟩, .directory [(".", 0), ("a", 1)]⟩,
    some ⟨⟨0, 0, 0, 0, 1, 0⟩, .emptyFile⟩], 0⟩

/-- Node-data extension: a directory may gain entries (existing lookups
preserved); every other node kind must be unchanged. -/
def NodeExt : Node → Node → Prop
  | .directory m1, d2 =>
      ∃ m2, d2 = .directory m2 ∧ ∀ k v, dirGet m1 k = some v → dirGet m2 k = some v
  | d1, d2 => d1 = d2

/-- Filesystem extension: the root is unchanged and every allocated
inode stays allocated with extended data (stats are unconstrained).
Path resolution reads only the root, allocation, directory lookups and
symlink targets, so it transfers along this relation. -/
def DataExt (fs1 fs2 : Filesystem) : Prop :=
  fs1.root = fs2.root ∧
  ∀ i n1, fs1.getAlloc i = some n1 →
    ∃ n2, fs2.getAlloc i = some n2 ∧ NodeExt n1.data n2.data

/-- The state reached by a write_directory_metadata of stat
(mode 0o700, nlink 1) on the root of a fresh filesystem (the C9
witness state). -/
def c9fsW : Filesystem :=
  ⟨[some ⟨⟨0o700, 0, 0, 0, 1, 0⟩, .directory [(".", 0)]⟩], 0⟩

/-!  Basic lemmas about the walk budget. -/

theorem Limits.takePathSegment_ok {l l1 : Limits}
    (h : l.takePathSegment = .ok l1) :
    l1.pathSegment + 1 = l.pathSegment ∧ l1.symbolicLink = l.symbolicLink := by
  unfold Limits.takePathSegment at h
  split at h
  · cases h
    constructor
    · simp
      omega
    · rfl
  · cases h

theorem Limits.takeSymbolicLink_ok {l l1 : Limits}
    (h : l.takeSymbolicLink = .ok l1) :
    l1.symbolicLink + 1 = l.symbolicLink ∧ l1.pathSegment = l.pathSegment := by
  unfold Limits.takeSymbolicLink at h
  split at h
  · cases h
    constructor
    · simp
      omega
    · rfl
  · cases h

theorem resolvePathSegment_limits {fs : Filesystem} {l : Limits} {parent : Nat} {part : Seg}
    {l1 : Limits} {e : DirEntryRef}
    (h : resolvePathSegment fs l parent part = .ok (l1, e)) :
    l1.pathSegment + 1 = l.pathSegment ∧ l1.symbolicLink = l.symbolicLink := by
  unfold resolvePathSegment at h
  split at h
  · cases h
  · rename_i ltake heq
    have hl := Limits.takePathSegment_ok heq
    split at h
    · cases h
      exact hl
    · split at h
      · cases h
      · split at h
        · split at h
          · cases h
          · cases h
            exact hl
        · cases h

/-- Path walks only consume the budget: the limits in an ok result are
componentwise at most the input limits (joint statement for the three
fuel-indexed walk functions). -/
theorem resolveGoMono :
    ∀ fuel : Nat, ∀ fs : Filesystem,
      (∀ l e l2 e2, resolveSymlinksGo fs fuel l e = .ok (l2, e2) →
        l2.pathSegment ≤ l.pathSegment ∧ l2.symbolicLink ≤ l.symbolicLink) ∧
      (∀ l p path l2 e2, resolvePathGo fs fuel l p path = .ok (l2, e2) →
        l2.pathSegment ≤ l.pathSegment ∧ l2.symbolicLink ≤ l.symbolicLink) ∧
      (∀ l e path l2 e2, resolvePathLoopGo fs fuel l e path = .ok (l2, e2) →
        l2.pathSegment ≤ l.pathSegment ∧ l2.symbolicLink ≤ l.symbolicLink) := by
  intro fuel
  induction fuel with
  | zero =>
    intro fs
    refine ⟨?_, ?_, ?_⟩
    · intro l e l2 e2 h
      simp [resolveSymlinksGo] at h
    · intro l p path l2 e2 h
      simp [resolvePathGo] at h
    · intro l e path l2 e2 h
      simp [resolvePathLoopGo] at h
  | succ n ih =>
    intro fs
    obtain ⟨ihS, ihP, ihL⟩ := ih fs
    refine ⟨?_, ?_, ?_⟩
    · intro l e l2 e2 h
      simp only [resolveSymlinksGo] at h
      split at h
      · cases h
      · split at h
        · split at h
          · cases h
          · rename_i l1 htake
            split at h
            · cases h
            · rename_i r2 l2x e2x hpath
              have h1 := Limits.takeSymbolicLink_ok htake
              have h2 := ihP l1 e.parent _ _ _ hpath
              have h3 := ihS _ _ _ _ h
              omega
        · cases h
          constructor <;> omega
    · intro l p path l2 e2 h
      simp only [resolvePathGo] at h
      split at h
      · cases h
        constructor <;> omega
      · rename_i part rest
        split at h
        · cases h
        · rename_i r1 l1 e1 hseg
          have h1 := resolvePathSegment_limits hseg
          have h2 := ihL _ _ _ _ _ h
          omega
    · intro l e path l2 e2 h
      cases path with
      | nil =>
        simp only [resolvePathLoopGo] at h
        cases h
        constructor <;> omega
      | cons part rest =>
        simp only [resolvePathLoopGo] at h
        split at h
        · cases h
        · rename_i r1 l1 e1 hsym
          split at h
          · cases h
          · rename_i r2 l2x e2x hseg
            have h1 := ihS _ _ _ _ hsym
            have h2 := resolvePathSegment_limits hseg
            have h3 := ihL _ _ _ _ _ h
            omega

/-- Increasing the fuel past the sufficiency bound does not change the
result (one-step collapse; joint statement for the three walk
functions). -/

theorem resolveGoSucc :
    ∀ fuel : Nat, ∀ fs : Filesystem,
      (∀ l e, 4 * (l.pathSegment + l.symbolicLink) + 1 ≤ fuel →
        resolveSymlinksGo fs (fuel + 1) l e = resolveSymlinksGo fs fuel l e) ∧
      (∀ l p path, 4 * (l.pathSegment + l.symbolicLink) + 3 ≤ fuel →
        resolvePathGo fs (fuel + 1) l p path = resolvePathGo fs fuel l p path) ∧
      (∀ l e path, 4 * (l.pathSegment + l.symbolicLink) + 2 ≤ fuel →
        resolvePathLoopGo fs (fuel + 1) l e path = resolvePathLoopGo fs fuel l e path) := by
  intro fuel
  induction fuel with
  | zero =>
    intro fs
    refine ⟨?_, ?_, ?_⟩ <;> intro l <;> intro e p <;> omega
  | succ n ih =>
    intro fs
    obtain ⟨ihS, ihP, ihL⟩ := ih fs
    refine ⟨?_, ?_, ?_⟩
    · intro l e hle
      conv_lhs => rw [resolveSymlinksGo]
      conv_rhs => rw [resolveSymlinksGo]
      cases hg : fs.getInode e.child with
      | error err => simp only [hg]
      | ok node =>
        simp only [hg]
        cases hd : node.data with
        | symbolicLink target =>
          simp only [hd]
          cases ht : l.takeSymbolicLink with
          | error err => simp only [ht]
          | ok l1 =>
            simp only [ht]
            have h1 := Limits.takeSymbolicLink_ok ht
            rw [ihP l1 e.parent target (by omega)]
            cases hr : resolvePathGo fs n l1 e.parent target with
            | error err => simp only [hr]
            | ok r =>
              obtain ⟨l2, e2⟩ := r
              simp only [hr]
              have h2 := (resolveGoMono n fs).2.1 _ _ _ _ _ hr
              exact ihS l2 e2 (by omega)
        | directory m => simp only [hd]
        | emptyFile => simp only [hd]
        | normalFile k => simp only [hd]
        | char mj mn => simp only [hd]
        | block mj mn => simp only [hd]
        | fifo => simp only [hd]
    · intro l p path hle
      cases path with
      | nil => rfl
      | cons part rest =>
        conv_lhs => rw [resolvePathGo]
        conv_rhs => rw [resolvePathGo]
        cases hs : resolvePathSegment fs l p part with
        | error err => simp only [hs]
        | ok r =>
          obtain ⟨l1, e1⟩ := r
          simp only [hs]
          have h1 := resolvePathSegment_limits hs
          exact ihL l1 e1 rest (by omega)
    · intro l e path hle
      cases path with
      | nil => rfl
      | cons part rest =>
        conv_lhs => rw [resolvePathLoopGo]
        conv_rhs => rw [resolvePathLoopGo]
        rw [ihS l e (by omega)]
        cases hr : resolveSymlinksGo fs n l e with
        | error err => simp only [hr]
        | ok r =>
          obtain ⟨l1, e1⟩ := r
          simp only [hr]
          have h1 := (resolveGoMono n fs).1 _ _ _ _ hr
          cases hs : resolvePathSegment fs l1 e1.child part with
          | error err => simp only [hs]
          | ok r2 =>
            obtain ⟨l2, e2⟩ := r2
            simp only [hs]
            have h2 := resolvePathSegment_limits hs
            exact ihL l2 e2 rest (by omega)


/-- Fuel irrelevance for resolveSymlinksGo: any two fuels at or above the
bound give equal results. -/
theorem resolveSymlinksGoIrrel (fs : Filesystem) (l : Limits) (e : DirEntryRef)
    {f1 f2 : Nat} (h1 : 4 * (l.pathSegment + l.symbolicLink) + 1 ≤ f1)
    (h2 : 4 * (l.pathSegment + l.symbolicLink) + 1 ≤ f2) :
    resolveSymlinksGo fs f1 l e = resolveSymlinksGo fs f2 l e := by
  have aux : ∀ d b, 4 * (l.pathSegment + l.symbolicLink) + 1 ≤ b →
      resolveSymlinksGo fs (b + d) l e = resolveSymlinksGo fs b l e := by
    intro d
    induction d with
    | zero => intro b hb; rfl
    | succ k ihk =>
      intro b hb
      have : b + (k + 1) = (b + k) + 1 := by omega
      rw [this, (resolveGoSucc (b + k) fs).1 l e (by omega), ihk b hb]
  obtain ⟨d1, hd1⟩ := Nat.le.dest h1
  obtain ⟨d2, hd2⟩ := Nat.le.dest h2
  rw [← hd1, ← hd2, aux d1 _ (le_refl _), aux d2 _ (le_refl _)]

/-- Fuel irrelevance for resolvePathGo. -/
theorem resolvePathGoIrrel (fs : Filesystem) (l : Limits) (p : Nat) (path : RPath)
    {f1 f2 : Nat} (h1 : 4 * (l.pathSegment + l.symbolicLink) + 3 ≤ f1)
    (h2 : 4 * (l.pathSegment + l.symbolicLink) + 3 ≤ f2) :
    resolvePathGo fs f1 l p path = resolvePathGo fs f2 l p path := by
  have aux : ∀ d b, 4 * (l.pathSegment + l.symbolicLink) + 3 ≤ b →
      resolvePathGo fs (b + d) l p path = resolvePathGo fs b l p path := by
    intro d
    induction d with
    | zero => intro b hb; rfl
    | succ k ihk =>
      intro b hb
      have : b + (k + 1) = (b + k) + 1 := by omega
      rw [this, (resolveGoSucc (b + k) fs).2.1 l p path (by omega), ihk b hb]
  obtain ⟨d1, hd1⟩ := Nat.le.dest h1
  obtain ⟨d2, hd2⟩ := Nat.le.dest h2
  rw [← hd1, ← hd2, aux d1 _ (le_refl _), aux d2 _ (le_refl _)]

/-- Filesystem.resolveSymlinks evaluated at any sufficient fuel. -/
theorem resolveSymlinks_go (fs : Filesystem) (l : Limits) (e : DirEntryRef)
    {fuel : Nat} (h : 4 * (l.pathSegment + l.symbolicLink) + 1 ≤ fuel) :
    fs.resolveSymlinks l e = resolveSymlinksGo fs fuel l e := by
  unfold Filesystem.resolveSymlinks resolveFuel
  exact resolveSymlinksGoIrrel fs l e (by omega) h

/-- Filesystem.resolvePath evaluated at any sufficient fuel. -/
theorem resolvePath_go (fs : Filesystem) (l : Limits) (p : Nat) (path : RPath)
    {fuel : Nat} (h : 4 * (l.pathSegment + l.symbolicLink) + 3 ≤ fuel) :
    fs.resolvePath l p path = resolvePathGo fs fuel l p path := by
  unfold Filesystem.resolvePath resolveFuel
  exact resolvePathGoIrrel fs l p path (by omega) h

/-!  Claim theorems. -/

/-- C1: the spec promises decode(encode(m)) = m with descriptors dequeued
in order, but in the src snapshot the serializer rejects every protocol
message (the serialize_struct, serialize_tuple_struct and serialize_u32
methods are Unimplemented stubs) and SysFd::deserialize returns the
constant SysFd(999) without dequeuing anything, so the round trip never
yields the original message. -/
theorem C1_round_trip_fails :
    (∀ (m : MessageFromSand) (b : IPCBuffer),
      serializeMessageFromSand b m = .error .Unimplemented) ∧
    (∀ (m : MessageToSand) (b : IPCBuffer),
      serializeMessageToSand b m = .error .Unimplemented) ∧
    (∀ (fd : SysFd) (b : IPCBuffer), serializeSysFd b fd = .error .Unimplemented) ∧
    (∀ b : IPCBuffer, deserializeSysFd b = .ok (⟨999⟩, b)) ∧
    (∀ m : MessageFromSand, roundTripFromSand m = .error .Unimplemented) ∧
    roundTripFromSand ⟨⟨1⟩, .OpenProcess ⟨2⟩⟩ ≠
      .ok ⟨⟨1⟩, .OpenProcess ⟨2⟩⟩ := by
  refine ⟨fun m b => rfl, fun m b => rfl, fun fd b => rfl, fun b => rfl, fun m => rfl, ?_⟩
  simp [roundTripFromSand, serializeMessageFromSand]

/-- C6 counterexample: with brk_start = brk = 0x100000 the emulated
brk(0x100800) returns 0x100800 (the stored break, max(brk_start,
new_brk), not rounded), not the page-rounded 0x101000 the claim
states. -/
theorem C6_brk_returns_unrounded :
    (doBrk ⟨0x100000, 0x100000⟩ [] 0x100800).map (fun r => r.1) = .ok 0x100800 ∧
    (0x100800 : Nat) ≠ 0x101000 := by
  constructor
  · rfl
  · decide

/-- C6 (amended): the emulated brk(0x100800) returns 0x100800, records
brk = 0x100800, and creates one anonymous mapping at 0x100000 of length
0x1000, i.e. covering exactly [0x100000, 0x101000). -/
theorem C6_brk_growth :
    doBrk ⟨0x100000, 0x100000⟩ [] 0x100800 =
      .ok (0x100800, ⟨0x100800, 0x100000⟩, [(0x100000, 0x1000)]) := by
  rfl

/-- C7: the compiled loader (guest) policy kills the process on ptrace,
allows read, write and close, and traces every syscall outside the allow
and deny lists into the tracer. -/
theorem C7_loader_policy :
    evalLoaderPolicy NR_PTRACE = .killProcess ∧
    evalLoaderPolicy 0 = .allow ∧
    evalLoaderPolicy 1 = .allow ∧
    evalLoaderPolicy 3 = .allow ∧
    ∀ nr : Nat, nr ∉ baseAllowListNrs → nr ≠ NR_PTRACE →
      evalLoaderPolicy nr = .traceTracer := by
  refine ⟨by decide, by decide, by decide, by decide, ?_⟩
  intro nr h1 h2
  simp [evalLoaderPolicy, policyForLoader, baseRulesForAllPolicies, evalRules, h1, h2]

/-- Witness for C7 at the concrete syscall number 9999 (neither allowed
nor denied). -/
theorem C7_loader_policy_witness :
    evalLoaderPolicy 9999 = .traceTracer :=
  C7_loader_policy.2.2.2.2 9999 (by decide) (by decide)

/-- C8: on a fork-trap stop the task loop does not spawn a child task:
handle_fork panics ("fork not handled yet"), so the claimed behaviour
(spawn a child seeded with the new pid, keep running) does not occur. -/
theorem C8_fork_trap_panics :
    taskRunStep (.signal SIGCHLD CLD_TRAPPED PTRACE_SIG_FORK) 42 = .panicked ∧
    (∀ pid : Nat,
      taskRunStep (.signal SIGCHLD CLD_TRAPPED PTRACE_SIG_FORK) 42 ≠ .spawnChild pid) ∧
    taskRunStep (.signal SIGCHLD CLD_TRAPPED PTRACE_SIG_FORK) 42 ≠ .continueRunning := by
  refine ⟨by decide, ?_, by decide⟩
  intro pid
  simp [taskRunStep]



/-- C5: for a syscall number outside the dispatch table (0xFFFF is
one), handling the seccomp trap sets the return register to -ENOSYS,
rewrites the stored syscall number to the blocked sentinel, logs the
emulated call at error level (whenever error logging is enabled by the
tracer settings), and continues the task. -/
theorem C5_unhandled_syscall :
    ((0xFFFF : Int) ∉ emulatedNrs) ∧
    ∀ (vpid : Nat) (maxLevel : LogLevel) (regs : UserRegs),
      regs.origRax ∉ emulatedNrs →
      handleSeccompTrapLocal vpid maxLevel regs =
        some ⟨{ regs with rax := -ENOSYS, origRax := SYSCALL_BLOCKED },
          if logEnabled maxLevel .error then
            some (.error, ⟨regs.origRax, regs.args, -ENOSYS⟩)
          else none,
          true⟩ := by
  refine ⟨by decide, ?_⟩
  intro vpid maxLevel regs h
  simp only [emulatedNrs, List.mem_cons, List.not_mem_nil, or_false, not_or] at h
  obtain ⟨h12, h59, h39, h110, h102, h104, h107, h108, h111, h109, h121, h63,
    h99, h218, h16, h4, h5, h6, h262, h21, h79, h80, h2, h257⟩ := h
  simp [handleSeccompTrapLocal, dispatchOutcome, h12, h59, h39, h110, h102, h104,
    h107, h108, h111, h109, h121, h63, h99, h218, h16, h4, h5, h6, h262, h21,
    h79, h80, h2, h257]

/-- Witness for C5 at syscall number 0xFFFF with logging fully
enabled. -/
theorem C5_unhandled_syscall_witness :
    handleSeccompTrapLocal 1 .traceLvl ⟨0xFFFF, 0, [1, 2, 3, 4, 5, 6]⟩ =
      some ⟨⟨SYSCALL_BLOCKED, -ENOSYS, [1, 2, 3, 4, 5, 6]⟩,
        some (.error, ⟨0xFFFF, [1, 2, 3, 4, 5, 6], -ENOSYS⟩), true⟩ := by
  have h := C5_unhandled_syscall.2 1 .traceLvl ⟨0xFFFF, 0, [1, 2, 3, 4, 5, 6]⟩ (by decide)
  simpa [logEnabled, LogLevel.toNat] using h

/-- C10: open_at ignores its at_dir argument entirely: it equals
open_at with no directory for every filesystem, handle and path, and
resolution starts at the root inode — opening the relative path "f"
against a directory handle that does contain f still fails with
NotFound because the root has no such entry, while the root-based path
d/f succeeds. -/
theorem C10_openAt_ignores_at_dir :
    (∀ (fs : Filesystem) (d : Option VFile) (p : RPath), fs.openAt d p = fs.openAt none p) ∧
    ((fsAtDirDemo.getAlloc 1).map INode.data =
      some (.directory [(".", 1), ("..", 0), ("f", 2)])) ∧
    fsAtDirDemo.openAt (some ⟨1⟩) [.name "f"] = .error .NotFound ∧
    fsAtDirDemo.openAt (some ⟨1⟩) [.name "d", .name "f"] = .ok ⟨2⟩ := by
  refine ⟨fun fs d p => rfl, by rfl, ?_, ?_⟩
  · simp [Filesystem.openAt, Filesystem.resolvePath, Filesystem.resolveSymlinks,
      resolveFuel, Limits.reset, resolvePathGo, resolvePathLoopGo, resolveSymlinksGo,
      resolvePathSegment, Limits.takePathSegment, Limits.takeSymbolicLink,
      Filesystem.getInode, Filesystem.getAlloc, fsAtDirDemo, dirGet]
  · simp [Filesystem.openAt, Filesystem.resolvePath, Filesystem.resolveSymlinks,
      resolveFuel, Limits.reset, resolvePathGo, resolvePathLoopGo, resolveSymlinksGo,
      resolvePathSegment, Limits.takePathSegment, Limits.takeSymbolicLink,
      Filesystem.getInode, Filesystem.getAlloc, fsAtDirDemo, dirGet]




set_option maxHeartbeats 4000000 in
/-- C4: in fsMidlink — where /a/b is a directory, /link is a symlink to
/a and /a/b/c is a regular file with content key 7 — opening /link/b/c
succeeds with the VFile of inode 3, whose content retrieval yields the
storage handle the backend associates with key 7; and in fsRellink a
symlink with the relative target "e" resolves against the link's
containing directory /d. -/
theorem C4_symlink_in_middle :
    ((fsMidlink.getAlloc 4).map INode.data = some (.symbolicLink [.root, .name "a"])) ∧
    ((fsMidlink.getAlloc 1).map INode.data =
      some (.directory [(".", 1), ("..", 0), ("b", 2)])) ∧
    fsMidlink.openPath [.root, .name "link", .name "b", .name "c"] = .ok ⟨3⟩ ∧
    ((fsMidlink.getAlloc 3).map INode.data = some (.normalFile 7)) ∧
    (∀ storage : Nat → Option Nat, ∀ h : Nat, storage 7 = some h →
      fsMidlink.vfileStorage storage ⟨3⟩ = .ok (.part h)) ∧
    ((fsRellink.getAlloc 2).map INode.data = some (.symbolicLink [.name "e"])) ∧
    fsRellink.openPath [.root, .name "d", .name "rel"] = .ok ⟨3⟩ ∧
    ((fsRellink.getAlloc 3).map INode.data = some (.normalFile 9)) := by
  refine ⟨by rfl, by rfl, ?_, by rfl, ?_, by rfl, ?_, by rfl⟩
  · simp [Filesystem.openPath, Filesystem.openAt, Filesystem.resolvePath,
      Filesystem.resolveSymlinks, resolveFuel, Limits.reset, resolvePathGo,
      resolvePathLoopGo, resolveSymlinksGo, resolvePathSegment, Limits.takePathSegment,
      Limits.takeSymbolicLink, Filesystem.getInode, Filesystem.getAlloc, fsMidlink, dirGet]
  · intro storage h hs
    simp [Filesystem.vfileStorage, Filesystem.getAlloc, fsMidlink, hs]
  · simp [Filesystem.openPath, Filesystem.openAt, Filesystem.resolvePath,
      Filesystem.resolveSymlinks, resolveFuel, Limits.reset, resolvePathGo,
      resolvePathLoopGo, resolveSymlinksGo, resolvePathSegment, Limits.takePathSegment,
      Limits.takeSymbolicLink, Filesystem.getInode, Filesystem.getAlloc, fsRellink, dirGet]

/-- Witness for C4 at a concrete storage map sending key 7 to handle
42. -/
theorem C4_symlink_in_middle_witness :
    (fun k => if k = 7 then some 42 else none : Nat → Option Nat) 7 = some 42 ∧
    fsMidlink.vfileStorage (fun k => if k = 7 then some 42 else none) ⟨3⟩ =
      .ok (.part 42) := by
  refine ⟨by decide, ?_⟩
  exact C4_symlink_in_middle.2.2.2.2.1 (fun k => if k = 7 then some 42 else none) 42 rfl




/-- One symlink hop's target resolution in fsLoop: resolving /y (or /x)
from the root spends two path segments and lands on the other link. -/
theorem fsLoop_hop (f ps s : Nat) (hps : 2 ≤ ps) (hf : 4 ≤ f) :
    resolvePathGo fsLoop f ⟨ps, s⟩ 0 [.root, .name "y"] =
      .ok (⟨ps - 1 - 1, s⟩, ⟨0, 2⟩) ∧
    resolvePathGo fsLoop f ⟨ps, s⟩ 0 [.root, .name "x"] =
      .ok (⟨ps - 1 - 1, s⟩, ⟨0, 1⟩) := by
  obtain ⟨g, rfl⟩ : ∃ g, f = g + 4 := ⟨f - 4, by omega⟩
  constructor <;>
    simp [resolvePathGo, resolvePathLoopGo, resolveSymlinksGo, resolvePathSegment,
      Limits.takePathSegment, Limits.takeSymbolicLink, Filesystem.getInode,
      Filesystem.getAlloc, fsLoop, dirGet, Nat.sub_lt, show 0 < ps by omega,
      show 0 < ps - 1 by omega]

/-- In fsLoop, a chase starting at either link with a symbolic-link
budget of n (and enough path-segment budget) performs its n hops and
then fails with SymbolicLinkLimitExceeded. -/
theorem fsLoop_chase :
    ∀ n fuel ps e, (e = DirEntryRef.mk 0 1 ∨ e = DirEntryRef.mk 0 2) →
    2 * n + 2 ≤ ps → n + 5 ≤ fuel →
    resolveSymlinksGo fsLoop fuel ⟨ps, n⟩ e = .error .SymbolicLinkLimitExceeded := by
  intro n
  induction n with
  | zero =>
    intro fuel ps e he hps hf
    obtain ⟨f, rfl⟩ : ∃ f, fuel = f + 1 := ⟨fuel - 1, by omega⟩
    rcases he with rfl | rfl <;>
      simp [resolveSymlinksGo, Filesystem.getInode, Filesystem.getAlloc, fsLoop,
        Limits.takeSymbolicLink]
  | succ s ih =>
    intro fuel ps e he hps hf
    obtain ⟨f, rfl⟩ : ∃ f, fuel = f + 1 := ⟨fuel - 1, by omega⟩
    have hhop := fsLoop_hop f ps s (by omega) (by omega)
    have htake : Limits.takeSymbolicLink ⟨ps, s + 1⟩ = .ok ⟨ps, s⟩ := by
      simp [Limits.takeSymbolicLink]
    rcases he with rfl | rfl
    · rw [resolveSymlinksGo]
      have hgi : fsLoop.getInode 1 =
          .ok ⟨⟨0, 0, 0, 0, 1, 0⟩, .symbolicLink [.root, .name "y"]⟩ := rfl
      simp only [hgi, htake, hhop.1]
      exact ih f (ps - 1 - 1) _ (Or.inr rfl) (by omega) (by omega)
    · rw [resolveSymlinksGo]
      have hgi : fsLoop.getInode 2 =
          .ok ⟨⟨0, 0, 0, 0, 1, 0⟩, .symbolicLink [.root, .name "x"]⟩ := rfl
      simp only [hgi, htake, hhop.2]
      exact ih f (ps - 1 - 1) _ (Or.inl rfl) (by omega) (by omega)



/-- Walking k further "a" components in fsSelfLoop with fewer than k
path-segment units fails with PathSegmentLimitExceeded. -/
theorem fsSelfLoop_exhausts :
    ∀ k fuel ps sl, ps < k → ps + 2 ≤ fuel →
    resolvePathLoopGo fsSelfLoop fuel ⟨ps, sl⟩ ⟨0, 0⟩ (List.replicate k (.name "a")) =
      .error .PathSegmentLimitExceeded := by
  intro k
  induction k with
  | zero =>
    intro fuel ps sl hk hf
    omega
  | succ j ih =>
    intro fuel ps sl hk hf
    obtain ⟨f, rfl⟩ : ∃ f, fuel = f + 1 := ⟨fuel - 1, by omega⟩
    rw [List.replicate_succ, resolvePathLoopGo]
    have hsym : resolveSymlinksGo fsSelfLoop f ⟨ps, sl⟩ ⟨0, 0⟩ = .ok (⟨ps, sl⟩, ⟨0, 0⟩) := by
      obtain ⟨g, rfl⟩ : ∃ g, f = g + 1 := ⟨f - 1, by omega⟩
      rfl
    simp only [hsym]
    cases hps : ps with
    | zero =>
      have hseg : resolvePathSegment fsSelfLoop ⟨0, sl⟩ 0 (.name "a") =
          .error .PathSegmentLimitExceeded := rfl
      simp only [hseg]
    | succ p =>
      have hseg : resolvePathSegment fsSelfLoop ⟨p + 1, sl⟩ 0 (.name "a") =
          .ok (⟨p, sl⟩, ⟨0, 0⟩) := by
        simp [resolvePathSegment, Limits.takePathSegment, Filesystem.getInode,
          Filesystem.getAlloc, fsSelfLoop, dirGet]
      simp only [hseg]
      exact ih f p sl (by omega) (by omega)

set_option maxHeartbeats 2000000 in
/-- C3: exhausting a walk budget yields the matching limit error and
never NotFound: a name lookup with no path-segment budget left fails
with PathSegmentLimitExceeded on any filesystem, a symlink dereference
with no symbolic-link budget left fails with SymbolicLinkLimitExceeded,
open on the /x -> /y -> /x loop fails with SymbolicLinkLimitExceeded
(and with a budget of n the chase performs its n hops and then fails,
so the standard budget fails after exactly 50 hops), a 1001-component
path fails with PathSegmentLimitExceeded, and the limits are fresh on
each public call (the loop filesystem still answers open("/")). -/
theorem C3_walk_limits :
    (∀ (fs : Filesystem) (l : Limits) (parent : Nat) (part : Seg), l.pathSegment = 0 →
      resolvePathSegment fs l parent part = .error .PathSegmentLimitExceeded) ∧
    (∀ (fs : Filesystem) (l : Limits) (e : DirEntryRef) (node : INode)
        (target : RPath) (fuel : Nat),
      fs.getAlloc e.child = some node → node.data = .symbolicLink target →
      l.symbolicLink = 0 → 1 ≤ fuel →
      resolveSymlinksGo fs fuel l e = .error .SymbolicLinkLimitExceeded) ∧
    ((fsLoop.getAlloc 1).map INode.data = some (.symbolicLink [.root, .name "y"])) ∧
    ((fsLoop.getAlloc 2).map INode.data = some (.symbolicLink [.root, .name "x"])) ∧
    fsLoop.openPath [.root, .name "x"] = .error .SymbolicLinkLimitExceeded ∧
    (∀ n ps fuel, 2 * n + 2 ≤ ps → n + 5 ≤ fuel →
      resolveSymlinksGo fsLoop fuel ⟨ps, n⟩ ⟨0, 1⟩ = .error .SymbolicLinkLimitExceeded) ∧
    fsSelfLoop.openPath c3LongPath = .error .PathSegmentLimitExceeded ∧
    fsLoop.openPath [.root] = .ok ⟨0⟩ := by
  refine ⟨?_, ?_, by rfl, by rfl, ?_, ?_, ?_, by rfl⟩
  · intro fs l parent part h
    unfold resolvePathSegment Limits.takePathSegment
    rw [h]
    rfl
  · intro fs l e node target fuel hga hdata hsl hfuel
    obtain ⟨f, rfl⟩ : ∃ f, fuel = f + 1 := ⟨fuel - 1, by omega⟩
    rw [resolveSymlinksGo]
    have hgi : fs.getInode e.child = .ok node := by
      unfold Filesystem.getInode
      rw [hga]
    have htake : Limits.takeSymbolicLink l = .error .SymbolicLinkLimitExceeded := by
      unfold Limits.takeSymbolicLink
      rw [hsl]
      rfl
    simp only [hgi, hdata, htake]
  · have hphase1 : fsLoop.resolvePath Limits.reset fsLoop.root [.root, .name "x"] =
        .ok (⟨998, 50⟩, ⟨0, 1⟩) := by
      simp [Filesystem.resolvePath, resolveFuel, Limits.reset, resolvePathGo,
        resolvePathLoopGo, resolveSymlinksGo, resolvePathSegment, Limits.takePathSegment,
        Limits.takeSymbolicLink, Filesystem.getInode, Filesystem.getAlloc, fsLoop, dirGet]
    have hchase : fsLoop.resolveSymlinks ⟨998, 50⟩ ⟨0, 1⟩ =
        .error .SymbolicLinkLimitExceeded := by
      unfold Filesystem.resolveSymlinks
      exact fsLoop_chase 50 _ 998 _ (Or.inl rfl) (by omega) (by norm_num [resolveFuel])
    unfold Filesystem.openPath Filesystem.openAt
    simp only [hphase1, hchase]
  · intro n ps fuel h1 h2
    exact fsLoop_chase n fuel ps _ (Or.inl rfl) h1 h2
  · have hphase1 : fsSelfLoop.resolvePath Limits.reset fsSelfLoop.root c3LongPath =
        .error .PathSegmentLimitExceeded := by
      rw [@resolvePath_go fsSelfLoop Limits.reset fsSelfLoop.root c3LongPath
        (4203 + 1) (by norm_num [Limits.reset])]
      simp only [c3LongPath]
      rw [resolvePathGo]
      have hseg : resolvePathSegment fsSelfLoop Limits.reset fsSelfLoop.root .root =
          .ok (⟨999, 50⟩, ⟨0, 0⟩) := by
        simp [resolvePathSegment, Limits.takePathSegment, Limits.reset, fsSelfLoop]
      simp only [hseg]
      exact fsSelfLoop_exhausts 1000 4203 999 50 (by omega) (by omega)
    unfold Filesystem.openPath Filesystem.openAt
    simp only [hphase1]



/-- Witness for C3: a concrete exhausted lookup and a concrete exhausted
chase (budget 50, hop 51 refused). -/
theorem C3_walk_limits_witness :
    resolvePathSegment Filesystem.new ⟨0, 50⟩ 0 (.name "q") =
      .error .PathSegmentLimitExceeded ∧
    resolveSymlinksGo fsLoop 55 ⟨102, 50⟩ ⟨0, 1⟩ =
      .error .SymbolicLinkLimitExceeded :=
  ⟨C3_walk_limits.1 Filesystem.new ⟨0, 50⟩ 0 (.name "q") rfl,
   C3_walk_limits.2.2.2.2.2.1 50 102 55 (by decide) (by decide)⟩


end Bandsocks

namespace Bandsocks

theorem getAlloc_lt {fs : Filesystem} {n : Nat} {node : INode}
    (h : fs.getAlloc n = some node) : n < fs.inodes.length := by
  by_contra hge
  unfold Filesystem.getAlloc at h
  rw [List.getD_eq_default] at h
  · cases h
  · omega

theorem getAlloc_set_self {fs : Filesystem} {n : Nat} (i : INode)
    (h : n < fs.inodes.length) : (setINode fs n i).getAlloc n = some i := by
  unfold setINode Filesystem.getAlloc
  simp [List.getD_eq_getElem?_getD, List.getElem?_set_self, h]

theorem getAlloc_set_ne {fs : Filesystem} {n m : Nat} (i : INode) (h : m ≠ n) :
    (setINode fs n i).getAlloc m = fs.getAlloc m := by
  unfold setINode Filesystem.getAlloc
  simp [List.getD_eq_getElem?_getD, List.getElem?_set_ne (Ne.symm h)]

theorem sum_map_set {α : Type} (f : α → Nat) :
    ∀ (l : List α) (k : Nat) (x : α) (h : k < l.length),
    ((l.set k x).map f).sum + f (l.get ⟨k, h⟩) = (l.map f).sum + f x := by
  intro l
  induction l with
  | nil => intro k x h; simp at h
  | cons a rest ih =>
    intro k x h
    cases k with
    | zero => simp [List.set]; omega
    | succ j =>
      simp only [List.set, List.map_cons, List.sum_cons, List.get]
      have := ih j x (by simpa using h)
      omega

end Bandsocks

namespace Bandsocks

/-- The slot read by getAlloc is the list element. -/
theorem getAlloc_eq_get {fs : Filesystem} {k : Nat} (h : k < fs.inodes.length) :
    fs.getAlloc k = fs.inodes.get ⟨k, h⟩ := by
  unfold Filesystem.getAlloc
  simp [List.getD_eq_getElem?_getD, List.getElem?_eq_getElem h]

theorem refCount_set {fs : Filesystem} {k : Nat} {old : INode}
    (hget : fs.getAlloc k = some old) (i : INode) (n : Nat) :
    refCount (setINode fs k i) n + entriesTo (some old) n =
      refCount fs n + entriesTo (some i) n := by
  have hk := getAlloc_lt hget
  have hsum := sum_map_set (fun slot => entriesTo slot n) fs.inodes k (some i) hk
  rw [getAlloc_eq_get hk] at hget
  rw [hget] at hsum
  unfold refCount setINode
  simpa using hsum

theorem refCount_set_stat {fs : Filesystem} {k : Nat} {old : INode}
    (hget : fs.getAlloc k = some old) (st : Stat) (n : Nat) :
    refCount (setINode fs k ⟨st, old.data⟩) n = refCount fs n := by
  obtain ⟨ostat, odata⟩ := old
  dsimp only
  have h := refCount_set hget ⟨st, odata⟩ n
  have : entriesTo (some ⟨st, odata⟩) n = entriesTo (some ⟨ostat, odata⟩) n := by
    cases odata <;> rfl
  simp only at h this
  omega

theorem refCount_append_none (fs : Filesystem) (n : Nat) :
    refCount { fs with inodes := fs.inodes ++ [none] } n = refCount fs n := by
  unfold refCount
  simp [entriesTo]

/-- dirInsert's effect on the number of entries with a given value. -/
theorem dirInsert_filter_count (n : Nat) :
    ∀ (mp : List (String × Nat)) (k : String) (v : Nat),
    ((dirInsert mp k v).1.filter fun kv => kv.2 = n).length +
      (match (dirInsert mp k v).2 with
        | some p => if p = n then 1 else 0
        | none => 0) =
    (mp.filter fun kv => kv.2 = n).length + (if v = n then 1 else 0) := by
  intro mp
  induction mp with
  | nil =>
    intro k v
    simp [dirInsert, List.filter]
    split <;> simp_all
  | cons e rest ih =>
    intro k v
    by_cases hk : e.1 = k
    · simp only [dirInsert, if_pos hk]
      by_cases hv : v = n <;> by_cases he : e.2 = n <;>
        simp [List.filter, hv, he] <;> omega
    · simp only [dirInsert, if_neg hk]
      have := ih k v
      by_cases he : e.2 = n <;> simp [List.filter, he] <;> omega

end Bandsocks

namespace Bandsocks

theorem refCount_unalloc_zero {fs : Filesystem} (hEA : EntriesAlloc fs) {n : Nat}
    (hn : fs.getAlloc n = none) : refCount fs n = 0 := by
  unfold refCount
  apply List.sum_eq_zero
  intro x hx
  obtain ⟨slot, hslot, rfl⟩ := List.mem_map.mp hx
  obtain ⟨idx, hidx⟩ := List.mem_iff_get.mp hslot
  have hga : fs.getAlloc idx.1 = slot := by
    rw [getAlloc_eq_get idx.2, hidx]
  cases slot with
  | none => rfl
  | some node =>
    obtain ⟨nstat, ndata⟩ := node
    cases ndata with
    | directory mp =>
      show (mp.filter fun kv => kv.2 = n).length = 0
      simp only [List.length_eq_zero]
      rw [List.filter_eq_nil_iff]
      intro kv hkv
      simp only [decide_eq_true_eq]
      intro heq
      have := hEA idx.1 ⟨nstat, .directory mp⟩ hga mp rfl kv hkv
      rw [heq, hn] at this
      cases this
    | emptyFile => rfl
    | normalFile k => rfl
    | symbolicLink t => rfl
    | char a b => rfl
    | block a b => rfl
    | fifo => rfl

end Bandsocks

namespace Bandsocks

/-- Membership in an inserted directory map. -/
theorem dirInsert_mem :
    ∀ (mp : List (String × Nat)) (k : String) (v : Nat) (kv : String × Nat),
    kv ∈ (dirInsert mp k v).1 → kv ∈ mp ∨ kv = (k, v) := by
  intro mp
  induction mp with
  | nil =>
    intro k v kv h
    simp [dirInsert] at h
    simp [h]
  | cons e rest ih =>
    intro k v kv h
    by_cases hk : e.1 = k
    · simp only [dirInsert, if_pos hk] at h
      rcases List.mem_cons.mp h with h1 | h1
      · right; simp [h1]
      · left; exact List.mem_cons_of_mem e h1
    · simp only [dirInsert, if_neg hk] at h
      rcases List.mem_cons.mp h with h1 | h1
      · left; simp [h1]
      · rcases ih k v kv h1 with h2 | h2
        · left; exact List.mem_cons_of_mem e h2
        · right; exact h2

/-- setINode at an allocated slot preserves which slots are allocated. -/
theorem isSome_getAlloc_set {fs : Filesystem} {k : Nat} {old : INode}
    (hget : fs.getAlloc k = some old) (i : INode) (m : Nat) :
    ((setINode fs k i).getAlloc m).isSome = (fs.getAlloc m).isSome := by
  by_cases hm : m = k
  · subst hm
    rw [getAlloc_set_self i (getAlloc_lt hget), hget]
    rfl
  · rw [getAlloc_set_ne i hm]

end Bandsocks

namespace Bandsocks

theorem addChild_inv {fs fs' : Filesystem} {parent : Nat} {nm : String} {child : Nat}
    (hInv : FullInv fs)
    (h : addChildToDirectory fs parent nm child = .ok fs') :
    FullInv fs' ∧ fs'.root = fs.root ∧
    (∀ m, (fs'.getAlloc m).isSome = (fs.getAlloc m).isSome) := by
  obtain ⟨hLC, hEA⟩ := hInv
  unfold addChildToDirectory at h
  cases hinc : inodeIncref fs child with
  | error e =>
    rw [hinc] at h
    cases h
  | ok fs1 =>
  simp only [hinc] at h
  unfold inodeIncref at hinc
  cases hc : fs.getAlloc child with
  | none =>
    simp only [hc] at hinc
    cases hinc
  | some cnode =>
  simp only [hc] at hinc
  by_cases hov : cnode.stat.nlink + 1 < 2 ^ 64
  case neg =>
    simp only [if_neg hov] at hinc
    cases hinc
  simp only [if_pos hov, Except.ok.injEq] at hinc
  have hfs1 := hinc
  cases hp1 : fs1.getAlloc parent with
  | none =>
    simp only [hp1] at h
    cases h
  | some pnode =>
  simp only [hp1] at h
  obtain ⟨pstat, pdata⟩ := pnode
  cases pdata with
  | emptyFile => cases h
  | normalFile k => cases h
  | symbolicLink t => cases h
  | char a b => cases h
  | block a b => cases h
  | fifo => cases h
  | directory mp =>
  -- shared facts about fs1
  have hga1c : fs1.getAlloc child =
      some ⟨{ cnode.stat with nlink := cnode.stat.nlink + 1 }, cnode.data⟩ := by
    rw [← hfs1]
    exact getAlloc_set_self _ (getAlloc_lt hc)
  have hga1 : ∀ m, m ≠ child → fs1.getAlloc m = fs.getAlloc m := by
    intro m hm
    rw [← hfs1]
    exact getAlloc_set_ne _ hm
  have hrc1 : ∀ n, refCount fs1 n = refCount fs n := by
    intro n
    rw [← hfs1]
    exact refCount_set_stat hc _ n
  have hdom1 : ∀ m, (fs1.getAlloc m).isSome = (fs.getAlloc m).isSome := by
    intro m
    rw [← hfs1]
    exact isSome_getAlloc_set hc _ m
  have hroot1 : fs1.root = fs.root := by
    rw [← hfs1]
    rfl
  -- the original node at parent and its relation to fs
  have hparent_fs : (parent = child ∧ cnode.data = .directory mp ∧
        pstat = { cnode.stat with nlink := cnode.stat.nlink + 1 }) ∨
      (parent ≠ child ∧ fs.getAlloc parent = some ⟨pstat, .directory mp⟩) := by
    by_cases hpc : parent = child
    · left
      subst hpc
      rw [hga1c] at hp1
      injection hp1 with he
      have hdata := congrArg INode.data he
      have hstat := congrArg INode.stat he
      simp only at hdata hstat
      exact ⟨rfl, hdata, hstat.symm⟩
    · right
      exact ⟨hpc, by rw [← hga1 parent hpc, hp1]⟩
  cases hr : dirInsert mp nm child with
  | mk mp2 previous =>
  simp only [hr] at h
  -- shared facts about fs2 = setINode fs1 parent ⟨pstat, directory mp2⟩
  have hplen : parent < fs1.inodes.length := getAlloc_lt hp1
  have hga2p : (setINode fs1 parent ⟨pstat, .directory mp2⟩).getAlloc parent =
      some ⟨pstat, .directory mp2⟩ := getAlloc_set_self _ hplen
  have hga2 : ∀ m, m ≠ parent →
      (setINode fs1 parent ⟨pstat, .directory mp2⟩).getAlloc m = fs1.getAlloc m :=
    fun m hm => getAlloc_set_ne _ hm
  have hdom2 : ∀ m,
      ((setINode fs1 parent ⟨pstat, .directory mp2⟩).getAlloc m).isSome =
        (fs.getAlloc m).isSome :=
    fun m => (isSome_getAlloc_set hp1 _ m).trans (hdom1 m)
  have hrc2 : ∀ n, refCount (setINode fs1 parent ⟨pstat, .directory mp2⟩) n +
      ((mp.filter fun kv => kv.2 = n).length) =
      refCount fs n + ((mp2.filter fun kv => kv.2 = n).length) := by
    intro n
    have hset := refCount_set hp1 ⟨pstat, .directory mp2⟩ n
    have h1 : entriesTo (some ⟨pstat, .directory mp⟩) n =
        (mp.filter fun kv => kv.2 = n).length := rfl
    have h2 : entriesTo (some ⟨pstat, .directory mp2⟩) n =
        (mp2.filter fun kv => kv.2 = n).length := rfl
    rw [h1, h2, hrc1 n] at hset
    omega
  have hnl2 : ∀ i nodei2, (setINode fs1 parent ⟨pstat, .directory mp2⟩).getAlloc i =
      some nodei2 →
      ∃ nodei, fs.getAlloc i = some nodei ∧
        nodei2.stat.nlink = nodei.stat.nlink + (if child = i then 1 else 0) ∧
        (nodei2.data = nodei.data ∨ (i = parent ∧ nodei2.data = .directory mp2)) := by
    intro i nodei2 hgi
    by_cases hip : i = parent
    · subst hip
      rw [hga2p] at hgi
      injection hgi with he
      subst he
      rcases hparent_fs with ⟨hpc, hcd, hps⟩ | ⟨hpc, hpfs⟩
      · refine ⟨cnode, by rw [hpc]; exact hc, ?_, Or.inr ⟨rfl, rfl⟩⟩
        rw [hps]
        simp [hpc]
      · refine ⟨⟨pstat, .directory mp⟩, hpfs, ?_, Or.inr ⟨rfl, rfl⟩⟩
        simp [Ne.symm hpc]
    · rw [hga2 i hip] at hgi
      by_cases hic : i = child
      · subst hic
        rw [hga1c] at hgi
        injection hgi with he
        subst he
        exact ⟨cnode, hc, by simp, Or.inl rfl⟩
      · rw [hga1 i hic] at hgi
        exact ⟨nodei2, hgi, by simp [Ne.symm hic], Or.inl rfl⟩
  have hAllocMp : ∀ kv : String × Nat, kv ∈ mp → (fs.getAlloc kv.2).isSome := by
    intro kv hkv
    rcases hparent_fs with ⟨hpc, hcd, hps⟩ | ⟨hpc, hpfs⟩
    · exact hEA child cnode hc mp hcd kv hkv
    · exact hEA parent ⟨pstat, .directory mp⟩ hpfs mp rfl kv hkv
  have hAllocMp2 : ∀ kv : String × Nat, kv ∈ mp2 → (fs.getAlloc kv.2).isSome := by
    intro kv hkv
    have hmem : kv ∈ (dirInsert mp nm child).1 := by rw [hr]; exact hkv
    rcases dirInsert_mem mp nm child kv hmem with hin | hin
    · exact hAllocMp kv hin
    · rw [hin, hc]
      rfl
  cases previous with
  | none =>
    injection h with hfs2
    subst hfs2
    constructor
    · constructor
      · intro i nodei hgi
        obtain ⟨nodei0, hga0, hnlk, _⟩ := hnl2 i nodei hgi
        have hbase := hLC i nodei0 hga0
        have hcnt := dirInsert_filter_count i mp nm child
        rw [hr] at hcnt
        simp only at hcnt
        have := hrc2 i
        omega
      · intro i nodei hgi mp3 hdata kv hkv
        obtain ⟨nodei0, hga0, _, hdesc⟩ := hnl2 i nodei hgi
        rw [hdom2 kv.2]
        rcases hdesc with hsame | ⟨hip, hmp2⟩
        · rw [hsame] at hdata
          exact hEA i nodei0 hga0 mp3 hdata kv hkv
        · rw [hmp2] at hdata
          injection hdata with he
          subst he
          exact hAllocMp2 kv hkv
    · constructor
      · show (setINode fs1 parent _).root = fs.root
        rw [← hroot1]
        rfl
      · exact hdom2
  | some prev =>
    unfold inodeDecref at h
    cases hv : (setINode fs1 parent ⟨pstat, .directory mp2⟩).getAlloc prev with
    | none =>
      simp only [hv] at h
      cases h
    | some vnode =>
    simp only [hv] at h
    cases hvn : vnode.stat.nlink with
    | zero =>
      simp only [hvn] at h
      cases h
    | succ c =>
    simp only [hvn, Except.ok.injEq] at h
    subst h
    have hvlen : prev < (setINode fs1 parent ⟨pstat, .directory mp2⟩).inodes.length :=
      getAlloc_lt hv
    have hrcset : ∀ n,
        refCount (setINode (setINode fs1 parent ⟨pstat, .directory mp2⟩) prev
          ⟨{ vnode.stat with nlink := c }, vnode.data⟩) n =
        refCount (setINode fs1 parent ⟨pstat, .directory mp2⟩) n :=
      fun n => refCount_set_stat hv _ n
    have hdomf : ∀ m,
        ((setINode (setINode fs1 parent ⟨pstat, .directory mp2⟩) prev
          ⟨{ vnode.stat with nlink := c }, vnode.data⟩).getAlloc m).isSome =
        (fs.getAlloc m).isSome :=
      fun m => (isSome_getAlloc_set hv _ m).trans (hdom2 m)
    have hnlf : ∀ i nodei2,
        (setINode (setINode fs1 parent ⟨pstat, .directory mp2⟩) prev
          ⟨{ vnode.stat with nlink := c }, vnode.data⟩).getAlloc i = some nodei2 →
        ∃ nodei, fs.getAlloc i = some nodei ∧
          nodei2.stat.nlink + (if prev = i then 1 else 0) =
            nodei.stat.nlink + (if child = i then 1 else 0) ∧
          (nodei2.data = nodei.data ∨ (i = parent ∧ nodei2.data = .directory mp2)) := by
      intro i nodei2 hgi
      by_cases hipv : i = prev
      · subst hipv
        rw [getAlloc_set_self _ hvlen] at hgi
        injection hgi with he
        subst he
        obtain ⟨nodei, hga0, hnlk, hdesc⟩ := hnl2 i vnode hv
        refine ⟨nodei, hga0, ?_, hdesc⟩
        dsimp only
        simp only [if_pos rfl, if_true]
        omega
      · rw [getAlloc_set_ne _ hipv] at hgi
        obtain ⟨nodei, hga0, hnlk, hdesc⟩ := hnl2 i nodei2 hgi
        refine ⟨nodei, hga0, ?_, hdesc⟩
        simp [Ne.symm hipv]
        omega
    constructor
    · constructor
      · intro i nodei hgi
        obtain ⟨nodei0, hga0, hnlk, _⟩ := hnlf i nodei hgi
        have hbase := hLC i nodei0 hga0
        have hcnt := dirInsert_filter_count i mp nm child
        rw [hr] at hcnt
        simp only at hcnt
        have h2 := hrc2 i
        have h3 := hrcset i
        dsimp only at h2 h3 hcnt hnlk hbase ⊢
        omega
      · intro i nodei hgi mp3 hdata kv hkv
        obtain ⟨nodei0, hga0, _, hdesc⟩ := hnlf i nodei hgi
        rw [hdomf kv.2]
        rcases hdesc with hsame | ⟨hip, hmp2⟩
        · rw [hsame] at hdata
          exact hEA i nodei0 hga0 mp3 hdata kv hkv
        · rw [hmp2] at hdata
          injection hdata with he
          subst he
          exact hAllocMp2 kv hkv
    · constructor
      · show (setINode (setINode fs1 parent _) prev _).root = fs.root
        rw [← hroot1]
        rfl
      · exact hdomf

end Bandsocks

namespace Bandsocks

theorem getAlloc_append_none (fs : Filesystem) (m : Nat) :
    Filesystem.getAlloc { fs with inodes := fs.inodes ++ [none] } m = fs.getAlloc m := by
  unfold Filesystem.getAlloc
  by_cases hm : m < fs.inodes.length
  · simp [List.getD_eq_getElem?_getD, List.getElem?_append_left hm]
  · rcases Nat.lt_or_ge m (fs.inodes.length + 1) with h1 | h1
    · have hm' : m = fs.inodes.length := by omega
      subst hm'
      simp [List.getD_eq_getElem?_getD, List.getElem?_append_right (le_refl _),
        List.getD_eq_default, Nat.le_of_not_lt hm]
    · rw [List.getD_eq_default, List.getD_eq_default] <;> simp at h1 ⊢ <;> omega

theorem getAlloc_len_none (fs : Filesystem) :
    fs.getAlloc fs.inodes.length = none := by
  unfold Filesystem.getAlloc
  rw [List.getD_eq_default]
  omega

/-- FullInv is preserved by alloc_child_directory. -/
theorem allocChild_inv {fs fs' : Filesystem} {parent : Nat} {nm : String} {num : Nat}
    (hInv : FullInv fs)
    (h : allocChildDirectory fs parent nm = .ok (fs', num)) :
    FullInv fs' ∧ fs'.root = fs.root ∧
    (∀ m, m ≠ fs.inodes.length → (fs'.getAlloc m).isSome = (fs.getAlloc m).isSome) ∧
    (fs'.getAlloc fs.inodes.length).isSome = true := by
  obtain ⟨hLC, hEA⟩ := hInv
  unfold allocChildDirectory allocInodeNumber at h
  simp only at h
  -- the fresh directory state fs2
  have hlen : fs.inodes.length < (fs.inodes ++ [none]).length := by simp
  have hga2 : ∀ m, m ≠ fs.inodes.length →
      (putDirectory { fs with inodes := fs.inodes ++ [none] } fs.inodes.length).getAlloc m =
      fs.getAlloc m := by
    intro m hm
    unfold putDirectory putInode
    rw [getAlloc_set_ne _ hm]
    exact getAlloc_append_none fs m
  have hga2n : (putDirectory { fs with inodes := fs.inodes ++ [none] }
      fs.inodes.length).getAlloc fs.inodes.length =
      some ⟨{ Stat.zero with mode := 0o755, nlink := 1 },
        .directory [(".", fs.inodes.length)]⟩ := by
    unfold putDirectory putInode
    exact getAlloc_set_self _ hlen
  have hrc2 : ∀ n, refCount (putDirectory { fs with inodes := fs.inodes ++ [none] }
      fs.inodes.length) n =
      refCount fs n + (if fs.inodes.length = n then 1 else 0) := by
    intro n
    unfold putDirectory putInode setINode
    have hsum := sum_map_set (fun slot => entriesTo slot n) (fs.inodes ++ [none])
      fs.inodes.length
      (some ⟨{ Stat.zero with mode := 0o755, nlink := 1 },
        .directory [(".", fs.inodes.length)]⟩) hlen
    have hnone : (fs.inodes ++ [none]).get ⟨fs.inodes.length, hlen⟩ = none := by
      simp [List.get_eq_getElem, List.getElem_append_right (le_refl _)]
    rw [hnone] at hsum
    have hrca : refCount { fs with inodes := fs.inodes ++ [none] } n = refCount fs n :=
      refCount_append_none fs n
    unfold refCount at hrca ⊢
    simp only at hrca hsum ⊢
    have hone : entriesTo (some ⟨{ Stat.zero with mode := 0o755, nlink := 1 },
        .directory [(".", fs.inodes.length)]⟩) n =
        (if fs.inodes.length = n then 1 else 0) := by
      unfold entriesTo
      by_cases hn : fs.inodes.length = n <;> simp [List.filter, hn]
    rw [hone] at hsum
    have hent : entriesTo none n = 0 := rfl
    rw [hent] at hsum
    omega
  have hInv2 : FullInv (putDirectory { fs with inodes := fs.inodes ++ [none] }
      fs.inodes.length) := by
    constructor
    · intro i nodei hgi
      by_cases hi : i = fs.inodes.length
      · subst hi
        rw [hga2n] at hgi
        injection hgi with he
        subst he
        have h0 : refCount fs fs.inodes.length = 0 :=
          refCount_unalloc_zero hEA (getAlloc_len_none fs)
        rw [hrc2]
        simp [h0]
      · rw [hga2 i hi] at hgi
        have := hLC i nodei hgi
        rw [hrc2]
        simp [Ne.symm hi, this]
    · intro i nodei hgi mp hdata kv hkv
      by_cases hi : i = fs.inodes.length
      · subst hi
        rw [hga2n] at hgi
        injection hgi with he
        subst he
        injection hdata with he2
        subst he2
        rcases List.mem_singleton.mp hkv with rfl
        rw [hga2n]
        rfl
      · rw [hga2 i hi] at hgi
        have halloc := hEA i nodei hgi mp hdata kv hkv
        by_cases hkvn : kv.2 = fs.inodes.length
        · rw [hkvn, hga2n]
          rfl
        · rw [hga2 kv.2 hkvn]
          exact halloc
  cases hadd1 : addChildToDirectory
      (putDirectory { fs with inodes := fs.inodes ++ [none] } fs.inodes.length)
      parent nm fs.inodes.length with
  | error e =>
    simp only [hadd1] at h
    cases h
  | ok fs3 =>
  simp only [hadd1] at h
  obtain ⟨hInv3, hroot3, hdom3⟩ := addChild_inv hInv2 hadd1
  cases hadd2 : addChildToDirectory fs3 fs.inodes.length ".." parent with
  | error e =>
    simp only [hadd2] at h
    cases h
  | ok fs4 =>
  simp only [hadd2] at h
  obtain ⟨hInv4, hroot4, hdom4⟩ := addChild_inv hInv3 hadd2
  obtain ⟨h1, h2⟩ := Prod.mk.injEq .. ▸ (Except.ok.injEq .. ▸ h)
  subst h1
  constructor
  · exact hInv4
  constructor
  · rw [hroot4, hroot3]
    unfold putDirectory putInode setINode
    rfl
  constructor
  · intro m hm
    rw [hdom4 m, hdom3 m, hga2 m hm]
  · rw [hdom4 _, hdom3 _, hga2n]
    rfl

end Bandsocks

namespace Bandsocks

theorem rocSeg_inv {fs fs' : Filesystem} {l l' : Limits} {parent : Nat} {part : Seg}
    {e : DirEntryRef} (hInv : FullInv fs)
    (h : resolveOrCreatePathSegment fs l parent part = .ok (fs', l', e)) :
    FullInv fs' ∧ fs'.root = fs.root := by
  unfold resolveOrCreatePathSegment at h
  cases htake : l.takePathSegment with
  | error err =>
    simp only [htake] at h
    cases h
  | ok l1 =>
  simp only [htake] at h
  cases part with
  | root =>
    simp only at h
    obtain ⟨h1, -, -⟩ := Prod.mk.injEq .. ▸ (Except.ok.injEq .. ▸ h)
    subst h1
    exact ⟨hInv, rfl⟩
  | name s =>
  simp only at h
  cases hga : fs.getAlloc parent with
  | none =>
    simp only [hga] at h
    cases h
  | some node =>
  simp only [hga] at h
  obtain ⟨nstat, ndata⟩ := node
  cases ndata with
  | emptyFile => cases h
  | normalFile k => cases h
  | symbolicLink t => cases h
  | char a b => cases h
  | block a b => cases h
  | fifo => cases h
  | directory mp =>
  simp only at h
  cases hget : dirGet mp s with
  | some child =>
    simp only [hget] at h
    obtain ⟨h1, -, -⟩ := Prod.mk.injEq .. ▸ (Except.ok.injEq .. ▸ h)
    subst h1
    exact ⟨hInv, rfl⟩
  | none =>
    simp only [hget] at h
    cases halloc : allocChildDirectory fs parent s with
    | error err =>
      simp only [halloc] at h
      cases h
    | ok r =>
      obtain ⟨fs2, child⟩ := r
      simp only [halloc] at h
      obtain ⟨h1, -, -⟩ := Prod.mk.injEq .. ▸ (Except.ok.injEq .. ▸ h)
      subst h1
      obtain ⟨hI, hroot, -⟩ := allocChild_inv hInv halloc
      exact ⟨hI, hroot⟩

theorem rocLoop_inv :
    ∀ (path : RPath) {fs fs' : Filesystem} {l l' : Limits} {e e' : DirEntryRef},
    FullInv fs → resolveOrCreatePathLoop fs l e path = .ok (fs', l', e') →
    FullInv fs' ∧ fs'.root = fs.root := by
  intro path
  induction path with
  | nil =>
    intro fs fs' l l' e e' hInv h
    unfold resolveOrCreatePathLoop at h
    obtain ⟨h1, -, -⟩ := Prod.mk.injEq .. ▸ (Except.ok.injEq .. ▸ h)
    subst h1
    exact ⟨hInv, rfl⟩
  | cons part rest ih =>
    intro fs fs' l l' e e' hInv h
    unfold resolveOrCreatePathLoop at h
    cases hsym : fs.resolveSymlinks l e with
    | error err =>
      simp only [hsym] at h
      cases h
    | ok r =>
    obtain ⟨l1, e1⟩ := r
    simp only [hsym] at h
    cases hseg : resolveOrCreatePathSegment fs l1 e1.child part with
    | error err =>
      simp only [hseg] at h
      cases h
    | ok r2 =>
    obtain ⟨fs2, l2, e2⟩ := r2
    simp only [hseg] at h
    obtain ⟨hI2, hroot2⟩ := rocSeg_inv hInv hseg
    obtain ⟨hI', hroot'⟩ := ih hI2 h
    exact ⟨hI', hroot'.trans hroot2⟩

theorem rocPath_inv {fs fs' : Filesystem} {l l' : Limits} {parent : Nat} {path : RPath}
    {e' : DirEntryRef} (hInv : FullInv fs)
    (h : resolveOrCreatePath fs l parent path = .ok (fs', l', e')) :
    FullInv fs' ∧ fs'.root = fs.root := by
  cases path with
  | nil =>
    unfold resolveOrCreatePath at h
    obtain ⟨h1, -, -⟩ := Prod.mk.injEq .. ▸ (Except.ok.injEq .. ▸ h)
    subst h1
    exact ⟨hInv, rfl⟩
  | cons part rest =>
    unfold resolveOrCreatePath at h
    cases hseg : resolveOrCreatePathSegment fs l parent part with
    | error err =>
      simp only [hseg] at h
      cases h
    | ok r =>
    obtain ⟨fs1, l1, e1⟩ := r
    simp only [hseg] at h
    obtain ⟨hI1, hroot1⟩ := rocSeg_inv hInv hseg
    obtain ⟨hI', hroot'⟩ := rocLoop_inv rest hI1 h
    exact ⟨hI', hroot'.trans hroot1⟩

theorem rocParent_inv {fs fs' : Filesystem} {l l' : Limits} {path : RPath}
    {dir : Nat} {nm : String} (hInv : FullInv fs)
    (h : resolveOrCreateParent fs l path = .ok (fs', l', dir, nm)) :
    FullInv fs' ∧ fs'.root = fs.root := by
  unfold resolveOrCreateParent at h
  cases hpar : RPath.parentSeq path with
  | none =>
    simp only [hpar] at h
    cases hfn : RPath.fileName path with
    | none =>
      simp only [hfn] at h
      cases h
    | some nm2 =>
      simp only [hfn] at h
      obtain ⟨h1, -, -⟩ := Prod.mk.injEq .. ▸ (Except.ok.injEq .. ▸ h)
      subst h1
      exact ⟨hInv, rfl⟩
  | some par =>
    simp only [hpar] at h
    cases hroc : resolveOrCreatePath fs l fs.root par with
    | error err =>
      simp only [hroc] at h
      cases h
    | ok r =>
    obtain ⟨fs1, l1, e⟩ := r
    simp only [hroc] at h
    cases hsym : fs1.resolveSymlinks l1 e with
    | error err =>
      simp only [hsym] at h
      cases h
    | ok r2 =>
    obtain ⟨l2, e2⟩ := r2
    simp only [hsym] at h
    cases hfn : RPath.fileName path with
    | none =>
      simp only [hfn] at h
      cases h
    | some nm2 =>
      simp only [hfn] at h
      obtain ⟨h1, -, -⟩ := Prod.mk.injEq .. ▸ (Except.ok.injEq .. ▸ h)
      subst h1
      exact rocPath_inv hInv hroc

end Bandsocks

namespace Bandsocks

/-- Writing a fresh non-directory inode with a zero link count preserves
the invariant. -/
theorem putLeaf_inv {fs : Filesystem} (hInv : FullInv fs) (st : Stat) (d : Node)
    (hnl : st.nlink = 0) (hnd : ∀ mp, d ≠ .directory mp) :
    FullInv (putInode { fs with inodes := fs.inodes ++ [none] } fs.inodes.length ⟨st, d⟩) := by
  obtain ⟨hLC, hEA⟩ := hInv
  have hlen : fs.inodes.length < (fs.inodes ++ [none]).length := by simp
  have hga : ∀ m, m ≠ fs.inodes.length →
      (putInode { fs with inodes := fs.inodes ++ [none] } fs.inodes.length ⟨st, d⟩).getAlloc m =
      fs.getAlloc m := by
    intro m hm
    unfold putInode
    rw [getAlloc_set_ne _ hm]
    exact getAlloc_append_none fs m
  have hgan : (putInode { fs with inodes := fs.inodes ++ [none] }
      fs.inodes.length ⟨st, d⟩).getAlloc fs.inodes.length = some ⟨st, d⟩ := by
    unfold putInode
    exact getAlloc_set_self _ hlen
  have hent : ∀ n, entriesTo (some ⟨st, d⟩) n = 0 := by
    intro n
    cases d with
    | directory mp => exact absurd rfl (hnd mp)
    | emptyFile => rfl
    | normalFile k => rfl
    | symbolicLink t => rfl
    | char a b => rfl
    | block a b => rfl
    | fifo => rfl
  have hrc : ∀ n, refCount (putInode { fs with inodes := fs.inodes ++ [none] }
      fs.inodes.length ⟨st, d⟩) n = refCount fs n := by
    intro n
    unfold putInode setINode
    have hsum := sum_map_set (fun slot => entriesTo slot n) (fs.inodes ++ [none])
      fs.inodes.length (some ⟨st, d⟩) hlen
    have hnone : (fs.inodes ++ [none]).get ⟨fs.inodes.length, hlen⟩ = none := by
      simp [List.get_eq_getElem, List.getElem_append_right (le_refl _)]
    rw [hnone, hent n] at hsum
    have hrca : refCount { fs with inodes := fs.inodes ++ [none] } n = refCount fs n :=
      refCount_append_none fs n
    unfold refCount at hrca ⊢
    simp only at hrca hsum ⊢
    have hent0 : entriesTo none n = 0 := rfl
    rw [hent0] at hsum
    omega
  constructor
  · intro i nodei hgi
    by_cases hi : i = fs.inodes.length
    · subst hi
      rw [hgan] at hgi
      injection hgi with he
      subst he
      rw [hrc]
      have h0 : refCount fs fs.inodes.length = 0 :=
        refCount_unalloc_zero hEA (getAlloc_len_none fs)
      simp [h0, hnl]
    · rw [hga i hi] at hgi
      rw [hrc]
      exact hLC i nodei hgi
  · intro i nodei hgi mp hdata kv hkv
    by_cases hi : i = fs.inodes.length
    · subst hi
      rw [hgan] at hgi
      injection hgi with he
      subst he
      exact absurd hdata (hnd mp)
    · rw [hga i hi] at hgi
      have halloc := hEA i nodei hgi mp hdata kv hkv
      by_cases hkvn : kv.2 = fs.inodes.length
      · rw [hkvn, hgan]
        rfl
      · rw [hga kv.2 hkvn]
        exact halloc

end Bandsocks

namespace Bandsocks

theorem writeLeaf_inv {fs1 fs' : Filesystem} {dir : Nat} {nm : String}
    {st : Stat} {d : Node} (hI1 : FullInv fs1) (hnl : st.nlink = 0)
    (hnd : ∀ mp, d ≠ .directory mp)
    (h : addChildToDirectory
      (putInode { fs1 with inodes := fs1.inodes ++ [none] } fs1.inodes.length ⟨st, d⟩)
      dir nm fs1.inodes.length = .ok fs') : FullInv fs' :=
  (addChild_inv (putLeaf_inv hI1 st d hnl hnd) h).1

theorem writeFile_inv {fs fs' : Filesystem} {p : RPath} {key : Option Nat} {s : Stat}
    (hInv : FullInv fs) (hnl : s.nlink = 0)
    (h : writeFile fs p key s = .ok fs') : FullInv fs' := by
  unfold writeFile at h
  cases hpar : resolveOrCreateParent fs Limits.reset p with
  | error err =>
    simp only [hpar] at h
    cases h
  | ok r =>
  obtain ⟨fs1, l1, dir, nm⟩ := r
  simp only [hpar, allocInodeNumber] at h
  have hI1 := (rocParent_inv hInv hpar).1
  cases key with
  | some k =>
    exact writeLeaf_inv hI1 hnl (fun mp => by simp) h
  | none =>
    exact writeLeaf_inv hI1 hnl (fun mp => by simp) h

theorem writeSymlink_inv {fs fs' : Filesystem} {p target : RPath} {s : Stat}
    (hInv : FullInv fs) (hnl : s.nlink = 0)
    (h : writeSymlink fs p target s = .ok fs') : FullInv fs' := by
  unfold writeSymlink at h
  cases hpar : resolveOrCreateParent fs Limits.reset p with
  | error err =>
    simp only [hpar] at h
    cases h
  | ok r =>
  obtain ⟨fs1, l1, dir, nm⟩ := r
  simp only [hpar, allocInodeNumber] at h
  exact writeLeaf_inv (rocParent_inv hInv hpar).1 hnl (fun mp => by simp) h

theorem writeFifo_inv {fs fs' : Filesystem} {p : RPath} {s : Stat}
    (hInv : FullInv fs) (hnl : s.nlink = 0)
    (h : writeFifo fs p s = .ok fs') : FullInv fs' := by
  unfold writeFifo at h
  cases hpar : resolveOrCreateParent fs Limits.reset p with
  | error err =>
    simp only [hpar] at h
    cases h
  | ok r =>
  obtain ⟨fs1, l1, dir, nm⟩ := r
  simp only [hpar, allocInodeNumber] at h
  exact writeLeaf_inv (rocParent_inv hInv hpar).1 hnl (fun mp => by simp) h

theorem writeCharDevice_inv {fs fs' : Filesystem} {p : RPath} {s : Stat}
    {major minor : Nat} (hInv : FullInv fs) (hnl : s.nlink = 0)
    (h : writeCharDevice fs p s major minor = .ok fs') : FullInv fs' := by
  unfold writeCharDevice at h
  cases hpar : resolveOrCreateParent fs Limits.reset p with
  | error err =>
    simp only [hpar] at h
    cases h
  | ok r =>
  obtain ⟨fs1, l1, dir, nm⟩ := r
  simp only [hpar, allocInodeNumber] at h
  exact writeLeaf_inv (rocParent_inv hInv hpar).1 hnl (fun mp => by simp) h

theorem writeBlockDevice_inv {fs fs' : Filesystem} {p : RPath} {s : Stat}
    {major minor : Nat} (hInv : FullInv fs) (hnl : s.nlink = 0)
    (h : writeBlockDevice fs p s major minor = .ok fs') : FullInv fs' := by
  unfold writeBlockDevice at h
  cases hpar : resolveOrCreateParent fs Limits.reset p with
  | error err =>
    simp only [hpar] at h
    cases h
  | ok r =>
  obtain ⟨fs1, l1, dir, nm⟩ := r
  simp only [hpar, allocInodeNumber] at h
  exact writeLeaf_inv (rocParent_inv hInv hpar).1 hnl (fun mp => by simp) h

theorem writeHardlink_inv {fs fs' : Filesystem} {p target : RPath}
    (hInv : FullInv fs)
    (h : writeHardlink fs p target = .ok fs') : FullInv fs' := by
  unfold writeHardlink at h
  cases hres : fs.resolvePath Limits.reset fs.root target with
  | error err =>
    simp only [hres] at h
    cases h
  | ok r =>
  obtain ⟨l1, eTo⟩ := r
  simp only [hres] at h
  cases hpar : resolveOrCreateParent fs l1 p with
  | error err =>
    simp only [hpar] at h
    cases h
  | ok r2 =>
  obtain ⟨fs1, l2, dir, nm⟩ := r2
  simp only [hpar] at h
  exact (addChild_inv (rocParent_inv hInv hpar).1 h).1

theorem writeDirectoryMetadata_inv {fs fs' fs1 : Filesystem} {p : RPath} {s : Stat}
    {l : Limits} {e : DirEntryRef} {node : INode}
    (hInv : FullInv fs)
    (hwdm : wdmResolve fs p = .ok (fs1, l, e))
    (hga : fs1.getAlloc e.child = some node)
    (hs : s.nlink = node.stat.nlink)
    (h : writeDirectoryMetadata fs p s = .ok fs') : FullInv fs' := by
  have hI1 : FullInv fs1 := by
    unfold wdmResolve at hwdm
    cases hroc : resolveOrCreatePath fs Limits.reset fs.root p with
    | error err =>
      simp only [hroc] at hwdm
      cases hwdm
    | ok r =>
    obtain ⟨fs2, l2, e2⟩ := r
    simp only [hroc] at hwdm
    cases hsym : fs2.resolveSymlinks l2 e2 with
    | error err =>
      simp only [hsym] at hwdm
      cases hwdm
    | ok r2 =>
    obtain ⟨l3, e3⟩ := r2
    simp only [hsym] at hwdm
    obtain ⟨h1, -, -⟩ := Prod.mk.injEq .. ▸ (Except.ok.injEq .. ▸ hwdm)
    subst h1
    exact (rocPath_inv hInv hroc).1
  unfold writeDirectoryMetadata at h
  rw [hwdm] at h
  simp only at h
  rw [hga] at h
  simp only at h
  obtain ⟨nstat, ndata⟩ := node
  cases ndata with
  | emptyFile => cases h
  | normalFile k => cases h
  | symbolicLink t => cases h
  | char a b => cases h
  | block a b => cases h
  | fifo => cases h
  | directory mp =>
  simp only at h
  injection h with he
  subst he
  obtain ⟨hLC1, hEA1⟩ := hI1
  constructor
  · intro i nodei hgi
    have hrc := refCount_set_stat hga s i
    by_cases hi : i = e.child
    · subst hi
      rw [getAlloc_set_self _ (getAlloc_lt hga)] at hgi
      injection hgi with he2
      subst he2
      have := hLC1 e.child ⟨nstat, .directory mp⟩ hga
      simp only at this ⊢
      rw [hrc, hs, ← this]
    · rw [getAlloc_set_ne _ hi] at hgi
      rw [hrc]
      exact hLC1 i nodei hgi
  · intro i nodei hgi mp3 hdata kv hkv
    have hdom := isSome_getAlloc_set hga ⟨s, .directory mp⟩ kv.2
    rw [hdom]
    by_cases hi : i = e.child
    · subst hi
      rw [getAlloc_set_self _ (getAlloc_lt hga)] at hgi
      injection hgi with he2
      subst he2
      injection hdata with he3
      subst he3
      exact hEA1 e.child ⟨nstat, .directory mp⟩ hga mp rfl kv hkv
    · rw [getAlloc_set_ne _ hi] at hgi
      exact hEA1 i nodei hgi mp3 hdata kv hkv

end Bandsocks

namespace Bandsocks

theorem fullInv_new : FullInv Filesystem.new := by
  constructor
  · intro i node h
    match i with
    | 0 =>
      injection h with he
      subst he
      rfl
    | n + 1 => cases h
  · intro i node h mp hdata kv hkv
    match i with
    | 0 =>
      injection h with he
      subst he
      injection hdata with he2
      subst he2
      simp only [List.mem_singleton] at hkv
      subst hkv
      rfl
    | n + 1 => cases h

theorem goodStep_inv {fs fs' : Filesystem} (hInv : FullInv fs)
    (h : GoodStep fs fs') : FullInv fs' := by
  cases h with
  | writeFile p key s hnl hw => exact writeFile_inv hInv hnl hw
  | writeSymlink p target s hnl hw => exact writeSymlink_inv hInv hnl hw
  | writeHardlink p target hw => exact writeHardlink_inv hInv hw
  | writeDirectoryMetadata fs1 p s l e node hwdm hga hs hw =>
    exact writeDirectoryMetadata_inv hInv hwdm hga hs hw
  | writeFifo p s hnl hw => exact writeFifo_inv hInv hnl hw
  | writeCharDevice p s major minor hnl hw =>
    exact writeCharDevice_inv hInv hnl hw
  | writeBlockDevice p s major minor hnl hw =>
    exact writeBlockDevice_inv hInv hnl hw

theorem goodReach_inv {fs : Filesystem} (h : GoodReach fs) : FullInv fs := by
  induction h with
  | start => exact fullInv_new
  | step fs fs' hreach hstep ih => exact goodStep_inv ih hstep

end Bandsocks

namespace Bandsocks


end Bandsocks

namespace Bandsocks

/-- C2 (counterexample): the invariant fails as stated.  A single
write_file on a fresh filesystem whose supplied stat carries
nlink = 7 yields the reachable state c2fs, in which inode 1 stores
link count 8 (incremented caller value) while exactly one directory
entry in the whole filesystem references it. -/
theorem C2_link_count_violation :
    writeFile Filesystem.new [Seg.root, Seg.name "a"] none ⟨0, 0, 0, 0, 7, 0⟩ =
      .ok c2fs ∧ WriterReach c2fs ∧ ¬ LinkCountInv c2fs := by
  have hbuild :
      writeFile Filesystem.new [Seg.root, Seg.name "a"] none ⟨0, 0, 0, 0, 7, 0⟩ =
        .ok c2fs := by
    simp [writeFile, resolveOrCreateParent, RPath.parentSeq, RPath.fileName,
      resolveOrCreatePath, resolveOrCreatePathSegment, resolveOrCreatePathLoop,
      Filesystem.resolveSymlinks, resolveSymlinksGo, resolveFuel, Limits.reset,
      Limits.takePathSegment, Limits.takeSymbolicLink, Filesystem.getInode,
      Filesystem.getAlloc, Filesystem.new, putDirectory, putInode, setINode,
      allocInodeNumber, addChildToDirectory, inodeIncref, dirInsert, dirGet,
      Stat.zero, c2fs]
  refine ⟨hbuild, .step _ _ .start (.writeFile _ _ _ _ _ hbuild), ?_⟩
  intro h
  have := h 1 ⟨⟨0, 0, 0, 0, 8, 0⟩, .emptyFile⟩ rfl
  simp [refCount, entriesTo, c2fs, Filesystem.getAlloc] at this

/-- C2 (amended): in every filesystem state reachable from
Filesystem::new by VFSWriter operations whose node-creating calls
supply stats with nlink = 0 and whose write_directory_metadata calls
supply a stat whose nlink equals the link count already stored on the
resolved directory, every allocated inode's stored stat.nlink equals
the number of directory entries in the entire filesystem referencing
it. -/
theorem C2_link_count_invariant (fs : Filesystem) (h : GoodReach fs) :
    LinkCountInv fs :=
  (goodReach_inv h).1

/-- Witness for C2_link_count_invariant: the state reached by one
nlink-0 write_file of /a on a fresh filesystem. -/
theorem C2_link_count_invariant_witness : LinkCountInv c2fsGood :=
  C2_link_count_invariant c2fsGood
    (GoodReach.step _ _ GoodReach.start
      (GoodStep.writeFile Filesystem.new c2fsGood [Seg.root, Seg.name "a"] none ⟨0, 0, 0, 0, 0, 0⟩ rfl
        (by simp [writeFile, resolveOrCreateParent, RPath.parentSeq, RPath.fileName,
          resolveOrCreatePath, resolveOrCreatePathSegment, resolveOrCreatePathLoop,
          Filesystem.resolveSymlinks, resolveSymlinksGo, resolveFuel, Limits.reset,
          Limits.takePathSegment, Limits.takeSymbolicLink, Filesystem.getInode,
          Filesystem.getAlloc, Filesystem.new, putDirectory, putInode, setINode,
          allocInodeNumber, addChildToDirectory, inodeIncref, dirInsert, dirGet,
          Stat.zero, c2fsGood])))

end Bandsocks

namespace Bandsocks


theorem nodeExt_refl (d : Node) : NodeExt d d := by
  cases d with
  | directory m => exact ⟨m, rfl, fun k v h => h⟩
  | emptyFile => rfl
  | normalFile k => rfl
  | symbolicLink t => rfl
  | char a b => rfl
  | block a b => rfl
  | fifo => rfl

theorem nodeExt_trans {d1 d2 d3 : Node} (h12 : NodeExt d1 d2)
    (h23 : NodeExt d2 d3) : NodeExt d1 d3 := by
  cases d1 with
  | directory m1 =>
    obtain ⟨m2, he2, hg2⟩ := h12
    subst he2
    obtain ⟨m3, he3, hg3⟩ := h23
    exact ⟨m3, he3, fun k v h => hg3 k v (hg2 k v h)⟩
  | emptyFile => exact h12 ▸ h23
  | normalFile k => exact h12 ▸ h23
  | symbolicLink t => exact h12 ▸ h23
  | char a b => exact h12 ▸ h23
  | block a b => exact h12 ▸ h23
  | fifo => exact h12 ▸ h23

theorem dataExt_refl (fs : Filesystem) : DataExt fs fs :=
  ⟨rfl, fun i n1 h => ⟨n1, h, nodeExt_refl n1.data⟩⟩

theorem dataExt_trans {fs1 fs2 fs3 : Filesystem} (h12 : DataExt fs1 fs2)
    (h23 : DataExt fs2 fs3) : DataExt fs1 fs3 := by
  refine ⟨h12.1.trans h23.1, fun i n1 h => ?_⟩
  obtain ⟨n2, hg2, he2⟩ := h12.2 i n1 h
  obtain ⟨n3, hg3, he3⟩ := h23.2 i n2 hg2
  exact ⟨n3, hg3, nodeExt_trans he2 he3⟩

theorem dirGet_append (m1 m2 : List (String × Nat)) (k : String) :
    dirGet (m1 ++ m2) k =
      match dirGet m1 k with
      | some v => some v
      | none => dirGet m2 k := by
  induction m1 with
  | nil => simp [dirGet]
  | cons e rest ih =>
    by_cases he : e.1 = k
    · simp [dirGet, he]
    · simp [dirGet, he, ih]

theorem dirInsert_of_get_none {m : List (String × Nat)} {k : String}
    (v : Nat) (h : dirGet m k = none) : dirInsert m k v = (m ++ [(k, v)], none) := by
  induction m with
  | nil => rfl
  | cons e rest ih =>
    simp only [dirGet] at h
    by_cases he : e.1 = k
    · rw [if_pos he] at h
      cases h
    · rw [if_neg he] at h
      simp only [dirInsert, if_neg he, ih h, List.cons_append]

theorem getInode_ext {fs fs2 : Filesystem} (hme : DataExt fs fs2) {n : Nat}
    {node : INode} (h : fs.getInode n = .ok node) :
    ∃ node2, fs2.getInode n = .ok node2 ∧ NodeExt node.data node2.data := by
  unfold Filesystem.getInode at h ⊢
  cases hga : fs.getAlloc n with
  | none =>
    rw [hga] at h
    cases h
  | some node1 =>
    rw [hga] at h
    injection h with he
    obtain ⟨n2, hg2, he2⟩ := hme.2 n node1 hga
    exact ⟨n2, by rw [hg2], he ▸ he2⟩

theorem resolvePathSegment_ext {fs fs2 : Filesystem} (hme : DataExt fs fs2)
    {l : Limits} {parent : Nat} {part : Seg} {r : Limits × DirEntryRef}
    (h : resolvePathSegment fs l parent part = .ok r) :
    resolvePathSegment fs2 l parent part = .ok r := by
  unfold resolvePathSegment at h ⊢
  cases htk : l.takePathSegment with
  | error err =>
    rw [htk] at h
    cases h
  | ok l1 =>
  rw [htk] at h
  cases part with
  | root =>
    simp only at h ⊢
    rw [← hme.1]
    exact h
  | name s =>
    simp only at h ⊢
    cases hga : fs.getAlloc parent with
    | none =>
      simp only [hga] at h
      cases h
    | some node =>
    simp only [hga] at h
    obtain ⟨node2, hg2, hne⟩ := hme.2 parent node hga
    simp only [hg2]
    cases hnd : node.data with
    | directory map =>
      simp only [hnd] at h
      rw [hnd] at hne
      obtain ⟨m2, he2, hget⟩ := hne
      simp only [he2]
      cases hdg : dirGet map s with
      | none =>
        simp only [hdg] at h
        cases h
      | some child =>
        simp only [hdg] at h
        simp only [hget s child hdg]
        exact h
    | emptyFile => simp only [hnd] at h; cases h
    | normalFile k => simp only [hnd] at h; cases h
    | symbolicLink t => simp only [hnd] at h; cases h
    | char a b => simp only [hnd] at h; cases h
    | block a b => simp only [hnd] at h; cases h
    | fifo => simp only [hnd] at h; cases h

end Bandsocks

namespace Bandsocks

theorem resolveGoExt {fs fs2 : Filesystem} (hme : DataExt fs fs2) : ∀ fuel : Nat,
    (∀ l e r, resolveSymlinksGo fs fuel l e = .ok r →
      resolveSymlinksGo fs2 fuel l e = .ok r) ∧
    (∀ l parent path r, resolvePathGo fs fuel l parent path = .ok r →
      resolvePathGo fs2 fuel l parent path = .ok r) ∧
    (∀ l e path r, resolvePathLoopGo fs fuel l e path = .ok r →
      resolvePathLoopGo fs2 fuel l e path = .ok r) := by
  intro fuel
  induction fuel with
  | zero =>
    refine ⟨fun l e r h => ?_, fun l parent path r h => ?_, fun l e path r h => ?_⟩
    · rw [resolveSymlinksGo] at h
      cases h
    · rw [resolvePathGo] at h
      cases h
    · rw [resolvePathLoopGo] at h
      cases h
  | succ fuel ih =>
    refine ⟨fun l e r h => ?_, fun l parent path r h => ?_, fun l e path r h => ?_⟩
    · rw [resolveSymlinksGo] at h ⊢
      cases hgi : fs.getInode e.child with
      | error err =>
        simp only [hgi] at h
        cases h
      | ok node =>
      simp only [hgi] at h
      obtain ⟨node2, hgi2, hne⟩ := getInode_ext hme hgi
      simp only [hgi2]
      cases hnd : node.data with
      | symbolicLink target =>
        simp only [hnd] at h
        rw [hnd] at hne
        have hne2 : Node.symbolicLink target = node2.data := hne
        simp only [← hne2]
        cases htk : l.takeSymbolicLink with
        | error err =>
          simp only [htk] at h
          cases h
        | ok l1 =>
        simp only [htk] at h
        cases hrp : resolvePathGo fs fuel l1 e.parent target with
        | error err =>
          simp only [hrp] at h
          cases h
        | ok r1 =>
        simp only [hrp] at h
        obtain ⟨l2, e2⟩ := r1
        have hrp2 := ih.2.1 l1 e.parent target (l2, e2) hrp
        simp only [hrp2]
        exact ih.1 l2 e2 r h
      | directory map =>
        simp only [hnd] at h
        rw [hnd] at hne
        obtain ⟨m2, he2, -⟩ := hne
        simp only [he2]
        exact h
      | emptyFile =>
        simp only [hnd] at h
        rw [hnd] at hne
        rw [← hne]
        exact h
      | normalFile k =>
        simp only [hnd] at h
        rw [hnd] at hne
        rw [← hne]
        exact h
      | char a b =>
        simp only [hnd] at h
        rw [hnd] at hne
        rw [← hne]
        exact h
      | block a b =>
        simp only [hnd] at h
        rw [hnd] at hne
        rw [← hne]
        exact h
      | fifo =>
        simp only [hnd] at h
        rw [hnd] at hne
        rw [← hne]
        exact h
    · cases path with
      | nil =>
        rw [resolvePathGo] at h ⊢
        exact h
      | cons part rest =>
      rw [resolvePathGo] at h ⊢
      cases hps : resolvePathSegment fs l parent part with
      | error err =>
        simp only [hps] at h
        cases h
      | ok r1 =>
      simp only [hps] at h
      obtain ⟨l1, e1⟩ := r1
      simp only [resolvePathSegment_ext hme hps]
      exact ih.2.2 l1 e1 rest r h
    · cases path with
      | nil =>
        rw [resolvePathLoopGo] at h ⊢
        exact h
      | cons part rest =>
      rw [resolvePathLoopGo] at h ⊢
      cases hrs : resolveSymlinksGo fs fuel l e with
      | error err =>
        simp only [hrs] at h
        cases h
      | ok r1 =>
      simp only [hrs] at h
      obtain ⟨l1, e1⟩ := r1
      simp only [ih.1 l e (l1, e1) hrs]
      cases hps : resolvePathSegment fs l1 e1.child part with
      | error err =>
        simp only [hps] at h
        cases h
      | ok r2 =>
      simp only [hps] at h
      obtain ⟨l2, e2⟩ := r2
      simp only [resolvePathSegment_ext hme hps]
      exact ih.2.2 l2 e2 rest r h

theorem resolveSymlinks_ext {fs fs2 : Filesystem} (hme : DataExt fs fs2)
    {l : Limits} {e : DirEntryRef} {r : Limits × DirEntryRef}
    (h : fs.resolveSymlinks l e = .ok r) : fs2.resolveSymlinks l e = .ok r :=
  (resolveGoExt hme (resolveFuel l)).1 l e r h

theorem resolvePath_ext {fs fs2 : Filesystem} (hme : DataExt fs fs2)
    {l : Limits} {parent : Nat} {path : RPath} {r : Limits × DirEntryRef}
    (h : fs.resolvePath l parent path = .ok r) : fs2.resolvePath l parent path = .ok r :=
  (resolveGoExt hme (resolveFuel l)).2.1 l parent path r h

end Bandsocks

namespace Bandsocks

theorem addChild_spec {fs fs' : Filesystem} {parent child : Nat} {nm : String}
    {pnode : INode} {map : List (String × Nat)}
    (hne : parent ≠ child)
    (hpar : fs.getAlloc parent = some pnode)
    (hnd : pnode.data = .directory map)
    (hdg : dirGet map nm = none)
    (h : addChildToDirectory fs parent nm child = .ok fs') :
    fs'.root = fs.root ∧
    fs'.getAlloc parent = some ⟨pnode.stat, .directory (map ++ [(nm, child)])⟩ ∧
    (∀ i, i ≠ parent → i ≠ child → fs'.getAlloc i = fs.getAlloc i) ∧
    (∀ cnode, fs.getAlloc child = some cnode →
      fs'.getAlloc child =
        some ⟨{ cnode.stat with nlink := cnode.stat.nlink + 1 }, cnode.data⟩) := by
  unfold addChildToDirectory at h
  cases hinc : inodeIncref fs child with
  | error err =>
    simp only [hinc] at h
    cases h
  | ok fsI =>
  simp only [hinc] at h
  unfold inodeIncref at hinc
  cases hgc : fs.getAlloc child with
  | none =>
    simp only [hgc] at hinc
    cases hinc
  | some cnode =>
  simp only [hgc] at hinc
  split at hinc
  case isFalse => cases hinc
  case isTrue hlt =>
  injection hinc with hfsI
  subst hfsI
  have hparI : (setINode fs child
      { cnode with stat := { cnode.stat with nlink := cnode.stat.nlink + 1 } }).getAlloc
      parent = some pnode := by
    rw [getAlloc_set_ne _ hne]
    exact hpar
  simp only [hparI] at h
  simp only [hnd] at h
  simp only [dirInsert_of_get_none child hdg] at h
  injection h with hfs'
  subst hfs'
  have hclt : child < fs.inodes.length := getAlloc_lt hgc
  refine ⟨rfl, ?_, ?_, ?_⟩
  · have hlen2 : parent < (setINode fs child
        { cnode with stat := { cnode.stat with nlink := cnode.stat.nlink + 1 } }).inodes.length := by
      simp only [setINode, List.length_set]
      exact getAlloc_lt hpar
    rw [getAlloc_set_self _ hlen2]
  · intro i hip hic
    rw [getAlloc_set_ne _ hip, getAlloc_set_ne _ hic]
  · intro cnode2 hgc2
    injection hgc2 with he
    subst he
    have hstep1 : (setINode
        (setINode fs child
          { cnode with stat := { cnode.stat with nlink := cnode.stat.nlink + 1 } })
        parent { pnode with data := Node.directory (map ++ [(nm, child)]) }).getAlloc child =
        (setINode fs child
          { cnode with stat := { cnode.stat with nlink := cnode.stat.nlink + 1 } }).getAlloc
          child := getAlloc_set_ne _ (Ne.symm hne)
    rw [hstep1, getAlloc_set_self _ hclt]

theorem allocChildDirectory_spec {fs fs4 : Filesystem} {parent child : Nat}
    {s : String} {node : INode} {map : List (String × Nat)}
    (hpar : fs.getAlloc parent = some node)
    (hnd : node.data = .directory map)
    (hdg : dirGet map s = none)
    (h : allocChildDirectory fs parent s = .ok (fs4, child)) :
    child = fs.inodes.length ∧ fs4.root = fs.root ∧
    (∃ st2, fs4.getAlloc parent = some ⟨st2, .directory (map ++ [(s, child)])⟩) ∧
    (∀ i, i ≠ parent → i ≠ child → fs4.getAlloc i = fs.getAlloc i) := by
  unfold allocChildDirectory allocInodeNumber at h
  simp only at h
  have hplt : parent < fs.inodes.length := getAlloc_lt hpar
  have hpne : parent ≠ fs.inodes.length := by omega
  -- state after putDirectory on the fresh slot
  have hga2 : ∀ m, m ≠ fs.inodes.length →
      (putDirectory { fs with inodes := fs.inodes ++ [none] } fs.inodes.length).getAlloc m =
      fs.getAlloc m := by
    intro m hm
    unfold putDirectory putInode
    rw [getAlloc_set_ne _ hm]
    exact getAlloc_append_none fs m
  have hlen : fs.inodes.length < (fs.inodes ++ [none]).length := by simp
  have hga2n : (putDirectory { fs with inodes := fs.inodes ++ [none] }
      fs.inodes.length).getAlloc fs.inodes.length =
      some ⟨{ Stat.zero with mode := 0o755, nlink := 1 },
        .directory [(".", fs.inodes.length)]⟩ := by
    unfold putDirectory putInode
    exact getAlloc_set_self _ hlen
  cases hadd1 : addChildToDirectory
      (putDirectory { fs with inodes := fs.inodes ++ [none] } fs.inodes.length)
      parent s fs.inodes.length with
  | error err =>
    simp only [hadd1] at h
    cases h
  | ok fs3 =>
  simp only [hadd1] at h
  obtain ⟨hroot3, hpar3, hother3, hchild3⟩ :=
    addChild_spec hpne (hga2 parent hpne ▸ hpar) hnd hdg hadd1
  cases hadd2 : addChildToDirectory fs3 fs.inodes.length ".." parent with
  | error err =>
    simp only [hadd2] at h
    cases h
  | ok fs5 =>
  simp only [hadd2] at h
  obtain ⟨h1, h2⟩ := Prod.mk.injEq .. ▸ (Except.ok.injEq .. ▸ h)
  subst h1
  subst h2
  have hch3 := hchild3 _ hga2n
  obtain ⟨hroot5, hpar5, hother5, hchild5⟩ :=
    addChild_spec (Ne.symm hpne) hch3 rfl (by simp [dirGet]) hadd2
  refine ⟨rfl, ?_, ?_, ?_⟩
  · rw [hroot5, hroot3]
    rfl
  · exact ⟨_, hchild5 _ hpar3⟩
  · intro i hip hic
    rw [hother5 i hic hip, hother3 i hip hic]
    exact hga2 i hic

end Bandsocks

namespace Bandsocks

theorem rocSeg_rerun {fs fsA : Filesystem} {l lA : Limits} {parent : Nat}
    {part : Seg} {eA : DirEntryRef}
    (h : resolveOrCreatePathSegment fs l parent part = .ok (fsA, lA, eA)) :
    DataExt fs fsA ∧
    ∀ fs2, DataExt fsA fs2 →
      resolveOrCreatePathSegment fs2 l parent part = .ok (fs2, lA, eA) := by
  unfold resolveOrCreatePathSegment at h
  cases htk : l.takePathSegment with
  | error err =>
    simp only [htk] at h
    cases h
  | ok l1 =>
  simp only [htk] at h
  cases part with
  | root =>
    simp only at h
    injection h with hprod
    injection hprod with h1 hrest
    injection hrest with h2 h3
    subst h1
    subst h2
    subst h3
    refine ⟨dataExt_refl fs, fun fs2 hme => ?_⟩
    unfold resolveOrCreatePathSegment
    simp only [htk]
    rw [← hme.1]
  | name s =>
    simp only at h
    cases hga : fs.getAlloc parent with
    | none =>
      simp only [hga] at h
      cases h
    | some node =>
    simp only [hga] at h
    cases hnd : node.data with
    | directory map =>
      simp only [hnd] at h
      cases hdg : dirGet map s with
      | some child =>
        simp only [hdg] at h
        injection h with hprod
        injection hprod with h1 hrest
        injection hrest with h2 h3
        subst h1
        subst h2
        subst h3
        refine ⟨dataExt_refl fs, fun fs2 hme => ?_⟩
        unfold resolveOrCreatePathSegment
        simp only [htk]
        obtain ⟨node2, hga2, hne⟩ := hme.2 parent node hga
        rw [hnd] at hne
        obtain ⟨m2, hm2, hget⟩ := hne
        simp only [hga2, hm2, hget s child hdg]
      | none =>
        simp only [hdg] at h
        cases hacd : allocChildDirectory fs parent s with
        | error err =>
          simp only [hacd] at h
          cases h
        | ok r4 =>
        simp only [hacd] at h
        obtain ⟨fs4, child⟩ := r4
        injection h with hprod
        injection hprod with h1 hrest
        injection hrest with h2 h3
        subst h1
        subst h2
        subst h3
        obtain ⟨hchlen, hroot4, ⟨st2, hpar4⟩, hother4⟩ :=
          allocChildDirectory_spec hga hnd hdg hacd
        have hext : DataExt fs fs4 := by
          refine ⟨hroot4.symm, fun i n1 hgi => ?_⟩
          by_cases hip : i = parent
          · subst hip
            rw [hgi] at hga
            injection hga with he
            subst he
            refine ⟨_, hpar4, ?_⟩
            rw [hnd]
            refine ⟨map ++ [(s, child)], rfl, fun k v hkv => ?_⟩
            rw [dirGet_append]
            simp only [hkv]
          · have hic : i ≠ child := by
              have := getAlloc_lt hgi
              omega
            rw [← hother4 i hip hic] at hgi
            exact ⟨n1, hgi, nodeExt_refl n1.data⟩
        refine ⟨hext, fun fs2 hme => ?_⟩
        unfold resolveOrCreatePathSegment
        simp only [htk]
        obtain ⟨node2, hga2, hne⟩ := hme.2 parent ⟨st2, .directory (map ++ [(s, child)])⟩ hpar4
        simp only at hne
        obtain ⟨m2, hm2, hget⟩ := hne
        have hchild2 : dirGet m2 s = some child := by
          refine hget s child ?_
          rw [dirGet_append]
          simp [hdg, dirGet]
        simp only [hga2, hm2, hchild2]
    | emptyFile => simp only [hnd] at h; cases h
    | normalFile k => simp only [hnd] at h; cases h
    | symbolicLink t => simp only [hnd] at h; cases h
    | char a b => simp only [hnd] at h; cases h
    | block a b => simp only [hnd] at h; cases h
    | fifo => simp only [hnd] at h; cases h

end Bandsocks

namespace Bandsocks

theorem rocLoop_rerun : ∀ (path : RPath) {fs fs1 : Filesystem} {l l1 : Limits}
    {e e1 : DirEntryRef},
    resolveOrCreatePathLoop fs l e path = .ok (fs1, l1, e1) →
    DataExt fs fs1 ∧
    ∀ fs2, DataExt fs1 fs2 →
      resolveOrCreatePathLoop fs2 l e path = .ok (fs2, l1, e1) := by
  intro path
  induction path with
  | nil =>
    intro fs fs1 l l1 e e1 h
    unfold resolveOrCreatePathLoop at h
    injection h with hprod
    injection hprod with h1 hrest
    injection hrest with h2 h3
    subst h1
    subst h2
    subst h3
    exact ⟨dataExt_refl fs, fun fs2 hme => rfl⟩
  | cons part rest ih =>
    intro fs fs1 l l1 e e1 h
    unfold resolveOrCreatePathLoop at h
    cases hrs : fs.resolveSymlinks l e with
    | error err =>
      simp only [hrs] at h
      cases h
    | ok rB =>
    simp only [hrs] at h
    obtain ⟨lB, eB⟩ := rB
    cases hseg : resolveOrCreatePathSegment fs lB eB.child part with
    | error err =>
      simp only [hseg] at h
      cases h
    | ok rA =>
    simp only [hseg] at h
    obtain ⟨fsA, lA, eA⟩ := rA
    obtain ⟨hextA, hrerunA⟩ := rocSeg_rerun hseg
    obtain ⟨hextL, hrerunL⟩ := ih h
    refine ⟨dataExt_trans hextA hextL, fun fs2 hme => ?_⟩
    have hextA2 : DataExt fsA fs2 := dataExt_trans hextL hme
    have hext02 : DataExt fs fs2 := dataExt_trans hextA hextA2
    unfold resolveOrCreatePathLoop
    simp only [resolveSymlinks_ext hext02 hrs]
    simp only [hrerunA fs2 hextA2]
    exact hrerunL fs2 hme

theorem rocPath_rerun {fs fs1 : Filesystem} {l l1 : Limits} {parent : Nat}
    {path : RPath} {e1 : DirEntryRef}
    (h : resolveOrCreatePath fs l parent path = .ok (fs1, l1, e1)) :
    DataExt fs fs1 ∧
    ∀ fs2, DataExt fs1 fs2 →
      resolveOrCreatePath fs2 l parent path = .ok (fs2, l1, e1) := by
  cases path with
  | nil =>
    unfold resolveOrCreatePath at h
    injection h with hprod
    injection hprod with h1 hrest
    injection hrest with h2 h3
    subst h1
    subst h2
    subst h3
    exact ⟨dataExt_refl fs, fun fs2 hme => rfl⟩
  | cons part rest =>
    unfold resolveOrCreatePath at h
    cases hseg : resolveOrCreatePathSegment fs l parent part with
    | error err =>
      simp only [hseg] at h
      cases h
    | ok rA =>
    simp only [hseg] at h
    obtain ⟨fsA, lA, eA⟩ := rA
    obtain ⟨hextA, hrerunA⟩ := rocSeg_rerun hseg
    obtain ⟨hextL, hrerunL⟩ := rocLoop_rerun rest h
    refine ⟨dataExt_trans hextA hextL, fun fs2 hme => ?_⟩
    have hextA2 : DataExt fsA fs2 := dataExt_trans hextL hme
    unfold resolveOrCreatePath
    simp only [hrerunA fs2 hextA2]
    exact hrerunL fs2 hme

end Bandsocks

namespace Bandsocks

/-- C9: if write_directory_metadata(p, s) succeeds, producing fs2, then
calling write_directory_metadata(p, s) again on fs2 succeeds and returns
fs2 unchanged. -/
theorem C9_wdm_idempotent {fs fs' : Filesystem} {p : RPath} {s : Stat}
    (h : writeDirectoryMetadata fs p s = .ok fs') :
    writeDirectoryMetadata fs' p s = .ok fs' := by
  unfold writeDirectoryMetadata at h ⊢
  cases hwdm : wdmResolve fs p with
  | error err =>
    simp only [hwdm] at h
    cases h
  | ok r1 =>
  simp only [hwdm] at h
  obtain ⟨fs1, l2, e⟩ := r1
  cases hga : fs1.getAlloc e.child with
  | none =>
    simp only [hga] at h
    cases h
  | some node =>
  simp only [hga] at h
  cases hnd : node.data with
  | emptyFile => simp only [hnd] at h; cases h
  | normalFile k => simp only [hnd] at h; cases h
  | symbolicLink t => simp only [hnd] at h; cases h
  | char a b => simp only [hnd] at h; cases h
  | block a b => simp only [hnd] at h; cases h
  | fifo => simp only [hnd] at h; cases h
  | directory mp =>
  simp only [hnd] at h
  injection h with hfs'
  unfold wdmResolve at hwdm
  cases hroc : resolveOrCreatePath fs Limits.reset fs.root p with
  | error err =>
    simp only [hroc] at hwdm
    cases hwdm
  | ok rr =>
  simp only [hroc] at hwdm
  obtain ⟨fsr, lr, er⟩ := rr
  cases hsym : fsr.resolveSymlinks lr er with
  | error err =>
    simp only [hsym] at hwdm
    cases hwdm
  | ok rs =>
  simp only [hsym] at hwdm
  obtain ⟨ls, es⟩ := rs
  injection hwdm with hprod
  injection hprod with hq1 hqrest
  injection hqrest with hq2 hq3
  subst hq1
  subst hq2
  subst hq3
  obtain ⟨hext01, hrerun⟩ := rocPath_rerun hroc
  have hclt : es.child < fsr.inodes.length := getAlloc_lt hga
  have hext1transform : DataExt fsr (setINode fsr es.child ⟨s, .directory mp⟩) := by
    refine ⟨rfl, fun i n1 hgi => ?_⟩
    by_cases hic : i = es.child
    · subst hic
      have he2 : n1 = node := by
        rw [hgi] at hga
        injection hga
      refine ⟨_, getAlloc_set_self _ hclt, ?_⟩
      rw [he2, hnd]
      exact nodeExt_refl _
    · refine ⟨n1, ?_, nodeExt_refl _⟩
      rw [getAlloc_set_ne _ hic]
      exact hgi
  subst hfs'
  have hroot' : (setINode fsr es.child ⟨s, .directory mp⟩).root = fs.root :=
    hext01.1.symm
  have hwdm2 : wdmResolve (setINode fsr es.child ⟨s, .directory mp⟩) p =
      .ok (setINode fsr es.child ⟨s, .directory mp⟩, ls, es) := by
    unfold wdmResolve
    rw [hroot']
    simp only [hrerun _ hext1transform]
    simp only [resolveSymlinks_ext hext1transform hsym]
  simp only [hwdm2]
  have hga2 : (setINode fsr es.child ⟨s, .directory mp⟩).getAlloc es.child =
      some ⟨s, .directory mp⟩ := getAlloc_set_self _ hclt
  simp only [hga2]
  simp only [setINode, List.set_set]

end Bandsocks

namespace Bandsocks


theorem C9_wdm_idempotent_witness :
    writeDirectoryMetadata c9fsW [Seg.root] ⟨0o700, 0, 0, 0, 1, 0⟩ = .ok c9fsW :=
  C9_wdm_idempotent
    (show writeDirectoryMetadata Filesystem.new [Seg.root] ⟨0o700, 0, 0, 0, 1, 0⟩ =
        .ok c9fsW by
      simp [writeDirectoryMetadata, wdmResolve, resolveOrCreatePath,
        resolveOrCreatePathSegment, resolveOrCreatePathLoop,
        Filesystem.resolveSymlinks, resolveSymlinksGo, resolveFuel, Limits.reset,
        Limits.takePathSegment, Limits.takeSymbolicLink, Filesystem.getInode,
        Filesystem.getAlloc, Filesystem.new, putDirectory, putInode, setINode,
        Stat.zero, c9fsW])

end Bandsocks
